import Mathlib

/-!
Verification of the crouton remote-object server core
(`crouton/server.py`): the reference-counted `Namespace` registry and the
per-connection `Worker` dispatch loop.

Python dictionaries are modelled as association lists (`List (K × V)`)
with unique keys maintained by construction: `dictInsert` binds a key
(replacing any previous binding) and `dictErase` removes a binding.
Python `set`s are modelled as duplicate-free lists.  Machine-level
details (sockets, msgpack byte encoding) are external collaborators and
are modelled by oracle parameters where the server code consumes them.
-/

namespace Crouton

/-- Lookup in an association-list dictionary (Python `d[k]` / `d.get(k)`). -/
def dictLookup {K V : Type} [DecidableEq K] (k : K) : List (K × V) → Option V
  | [] => Option.none
  | p :: rest => if p.1 = k then some p.2 else dictLookup k rest

/-- Remove a key from an association-list dictionary (Python `del d[k]`,
ignoring the `KeyError` on absence, which callers model explicitly). -/
def dictErase {K V : Type} [DecidableEq K] (k : K) : List (K × V) → List (K × V)
  | [] => []
  | p :: rest => if p.1 = k then dictErase k rest else p :: dictErase k rest

/-- Bind a key in an association-list dictionary (Python `d[k] = v`). -/
def dictInsert {K V : Type} [DecidableEq K] (k : K) (v : V) (l : List (K × V)) :
    List (K × V) :=
  (k, v) :: dictErase k l

/-- Key membership (Python `k in d`). -/
def dictContains {K V : Type} [DecidableEq K] (k : K) (l : List (K × V)) : Bool :=
  (dictLookup k l).isSome


/-- Keys into the Namespace, as the Python code receives them from a
request: either an `int` instance id or a `str` name
(`isinstance(key, int)` dispatch in `__getitem__`/`__contains__`). -/
inductive Key where
  | id (n : Nat)
  | name (s : String)
deriving DecidableEq

/-- Python exceptions raised by the server core. -/
inductive Exc where
  | keyError (msg : String)
  | typeError (msg : String)
  | valueError (msg : String)
deriving DecidableEq

/-- Model of `traceback.format_exc()`: a descriptive, human-readable
rendering of the in-flight exception. -/
def format_exc : Exc → String
  | Exc.keyError m => String.append "KeyError: " m
  | Exc.typeError m => String.append "TypeError: " m
  | Exc.valueError m => String.append "ValueError: " m

/-- The `Namespace` registry (`crouton/server.py`, class `Namespace`).
`types` maps registered type names to opaque factory tokens; instance
objects have type `Obj`.  Reference counts are Python ints. -/
structure Namespace (Obj : Type) where
  types : List (String × Nat)
  instances : List (Nat × Obj)
  instances_by_name : List (String × Obj)
  ref_counts : List (Nat × List (Nat × Int))

namespace Namespace

variable {Obj : Type}

/-- `Namespace.__getitem__`: get an instance by id or name; a missing
key raises `KeyError`. -/
def getitem (ns : Namespace Obj) : Key → Except Exc Obj
  | Key.id n =>
    match dictLookup n ns.instances with
    | some o => Except.ok o
    | Option.none => Except.error (Exc.keyError "instance id")
  | Key.name s =>
    match dictLookup s ns.instances_by_name with
    | some o => Except.ok o
    | Option.none => Except.error (Exc.keyError "instance name")

/-- `Namespace.__contains__`: membership by id or name. -/
def contains (ns : Namespace Obj) : Key → Bool
  | Key.id n => dictContains n ns.instances
  | Key.name s => dictContains s ns.instances_by_name

/-- The increment step shared verbatim by `add` and `acquire`:
`ref_counts[owner] += 1` if present, else `ref_counts[owner] = 1`. -/
def bumpOwner (rc : List (Nat × Int)) (owner : Nat) : List (Nat × Int) :=
  match dictLookup owner rc with
  | some c => dictInsert owner (c + 1) rc
  | Option.none => dictInsert owner 1 rc

/-- `Namespace.add`: add an instance and acquire a reference for
`owner` (already converted to its id); optionally bind a name.  The
read `self._ref_counts[inst_id]` raises `KeyError` if the two tables
are out of sync (never in reachable states). -/
def add (ns : Namespace Obj) (inst : Obj) (inst_id : Nat) (owner : Nat)
    (name : Option String) : Except Exc (Namespace Obj) :=
  let step1 : Except Exc (Namespace Obj) :=
    if dictContains inst_id ns.instances then
      match dictLookup inst_id ns.ref_counts with
      | Option.none => Except.error (Exc.keyError "ref_counts inst_id")
      | some rc =>
        Except.ok { ns with ref_counts := dictInsert inst_id (bumpOwner rc owner) ns.ref_counts }
    else
      Except.ok { ns with
        instances := dictInsert inst_id inst ns.instances,
        ref_counts := dictInsert inst_id [(owner, 1)] ns.ref_counts }
  match step1 with
  | Except.error e => Except.error e
  | Except.ok ns1 =>
    match name with
    | Option.none => Except.ok ns1
    | some nm =>
      Except.ok { ns1 with instances_by_name := dictInsert nm inst ns1.instances_by_name }

/-- Lookup `self._ref_counts[inst_id]` where `inst_id` arrived from a
request and may be a name string; `_ref_counts` is keyed only by int
ids, so a string key always raises `KeyError` (as in Python). -/
def rcLookup (ns : Namespace Obj) : Key → Except Exc (List (Nat × Int))
  | Key.id n =>
    match dictLookup n ns.ref_counts with
    | some rc => Except.ok rc
    | Option.none => Except.error (Exc.keyError "ref_counts inst_id")
  | Key.name _ => Except.error (Exc.keyError "ref_counts str key")

/-- `Namespace.acquire`: increment `owner`'s count for `inst_id`. -/
def acquire (ns : Namespace Obj) (inst_id : Key) (owner : Nat) :
    Except Exc (Namespace Obj) :=
  match inst_id with
  | Key.name _ => Except.error (Exc.keyError "ref_counts str key")
  | Key.id n =>
    match dictLookup n ns.ref_counts with
    | Option.none => Except.error (Exc.keyError "ref_counts inst_id")
    | some rc =>
      Except.ok { ns with ref_counts := dictInsert n (bumpOwner rc owner) ns.ref_counts }

/-- `Namespace.release`: decrement `owner`'s count; when it drops below
1 remove the owner entry, and when the table empties remove the
instance entirely.  Returns whether the owner fully released. -/
def release (ns : Namespace Obj) (inst_id : Key) (owner : Nat) :
    Except Exc (Bool × Namespace Obj) :=
  match inst_id with
  | Key.name _ => Except.error (Exc.keyError "ref_counts str key")
  | Key.id n =>
    match dictLookup n ns.ref_counts with
    | Option.none => Except.error (Exc.keyError "ref_counts inst_id")
    | some rc =>
      match dictLookup owner rc with
      | Option.none => Except.error (Exc.keyError "ref_counts owner")
      | some c =>
        let rcDec := dictInsert owner (c - 1) rc
        if c - 1 < 1 then
          let rcDel := dictErase owner rcDec
          if rcDel.isEmpty then
            Except.ok (true, { ns with
              ref_counts := dictErase n ns.ref_counts,
              instances := dictErase n ns.instances })
          else
            Except.ok (true, { ns with ref_counts := dictInsert n rcDel ns.ref_counts })
        else
          Except.ok (false, { ns with ref_counts := dictInsert n rcDec ns.ref_counts })

/-- `Namespace.release_all`: for each id in the worker's acquisition
set, delete `owner`'s entry outright; empty tables trigger instance
deletion.  (`del ref_counts[owner]` raises `KeyError` on absence.) -/
def release_all (ns : Namespace Obj) (inst_ids : List Key) (owner : Nat) :
    Except Exc (Namespace Obj) :=
  match inst_ids with
  | [] => Except.ok ns
  | k :: rest =>
    match k with
    | Key.name _ => Except.error (Exc.keyError "ref_counts str key")
    | Key.id n =>
      match dictLookup n ns.ref_counts with
      | Option.none => Except.error (Exc.keyError "ref_counts inst_id")
      | some rc =>
        match dictLookup owner rc with
        | Option.none => Except.error (Exc.keyError "ref_counts owner")
        | some _ =>
          let rcDel := dictErase owner rc
          let ns' : Namespace Obj :=
            if rcDel.isEmpty then
              { ns with
                ref_counts := dictErase n ns.ref_counts,
                instances := dictErase n ns.instances }
            else
              { ns with ref_counts := dictInsert n rcDel ns.ref_counts }
          release_all ns' rest owner

end Namespace

/-! ### Reference-count conservation on one instance id (spec §8) -/

/-- One `add`/`acquire`/`release` call on a fixed instance id, by the
owner recorded in the constructor. -/
inductive RefOp where
  | add (owner : Nat)
  | acq (owner : Nat)
  | rel (owner : Nat)
deriving DecidableEq

/-- Apply one call to the Namespace.  A call that raises (`acquire` on
an absent id, `release` without a positive count) mutates nothing in
the Python code — every raise happens on a read before any write — so
the error case keeps the state unchanged. -/
def applyRefOp {Obj : Type} (iid : Nat) (obj : Obj) (ns : Namespace Obj) :
    RefOp → Namespace Obj
  | RefOp.add o =>
    match Namespace.add ns obj iid o Option.none with
    | Except.ok ns' => ns'
    | Except.error _ => ns
  | RefOp.acq o =>
    match Namespace.acquire ns (Key.id iid) o with
    | Except.ok ns' => ns'
    | Except.error _ => ns
  | RefOp.rel o =>
    match Namespace.release ns (Key.id iid) o with
    | Except.ok r => r.2
    | Except.error _ => ns

/-- Run a sequence of calls on the fixed instance id. -/
def runRefOps {Obj : Type} (iid : Nat) (obj : Obj) (ns : Namespace Obj) :
    List RefOp → Namespace Obj
  | [] => ns
  | op :: rest => runRefOps iid obj (applyRefOp iid obj ns op) rest

/-- The sum of all per-owner reference counts for `iid` (0 if the id
has no reference table entry). -/
def sumCounts {Obj : Type} (iid : Nat) (ns : Namespace Obj) : Int :=
  match dictLookup iid ns.ref_counts with
  | Option.none => 0
  | some rc => (rc.map Prod.snd).sum

/-- Is the instance present in the Namespace's instance storage? -/
def presentInst {Obj : Type} (iid : Nat) (ns : Namespace Obj) : Bool :=
  dictContains iid ns.instances

/-- Local well-formedness of one id's reference state: the id is in
instance storage iff its reference table entry exists, the entry is
non-empty with every count ≥ 1, and owner keys are unique. -/
def RefLocalInv {Obj : Type} (iid : Nat) (ns : Namespace Obj) : Prop :=
  (dictLookup iid ns.ref_counts = Option.none → dictContains iid ns.instances = false) ∧
  (∀ rc, dictLookup iid ns.ref_counts = some rc →
    dictContains iid ns.instances = true ∧ rc ≠ [] ∧
    (∀ p ∈ rc, 1 ≤ p.2) ∧ (rc.map Prod.fst).Nodup)

/-- `Server.register`: raises `KeyError` if the name is already in the
Namespace (in the Python code, even when bound to the same instance),
otherwise `add`s the instance — with `id(instance)` as its id and the
server as owner — under the given name. -/
def Server.register {Obj : Type} (ns : Namespace Obj) (inst : Obj) (inst_id : Nat)
    (serverId : Nat) (name : String) : Except Exc (Namespace Obj) :=
  if Namespace.contains ns (Key.name name) then
    Except.error (Exc.keyError "An instance by name already exists")
  else
    Namespace.add ns inst inst_id serverId (some name)

/-- A concrete empty registry over `Nat`-valued instance objects, used
to evaluate theorems on concrete inputs. -/
def emptyNsNat : Namespace Nat :=
  { types := [], instances := [], instances_by_name := [], ref_counts := [] }

/-- A concrete registry in which the name `"n"` is bound to instance
object `0` (stored under id 1, held once by owner 7). -/
def conflictNs : Namespace Nat :=
  { types := [], instances := [(1, 0)], instances_by_name := [("n", 0)],
    ref_counts := [(1, [(7, 1)])] }

/-- The registry left behind after owner 7 fully releases id 1 in
`conflictNs`: the instance is destroyed but the name stays bound. -/
def postReleaseNs : Namespace Nat :=
  { types := [], instances := [], instances_by_name := [("n", 0)], ref_counts := [] }

/-! ### The Connection Worker (`crouton/server.py`, class `Worker`) -/

/-- Python values as they cross the wire or live in the registry:
scalars, strings, binary blobs and containers of such, plus opaque
server-side objects (carrying their Python identity) that msgpack
cannot serialize. -/
inductive PyVal where
  | none
  | bool (b : Bool)
  | int (n : Int)
  | str (s : String)
  | bytes (bs : List Nat)
  | list (xs : List PyVal)
  | map (kvs : List (PyVal × PyVal))
  | obj (oid : Nat)

mutual

/-- Is the value representable as a plain serializable msgpack value
(scalar, string, binary blob, or a container built purely from such
values, recursively)? -/
def isPlain : PyVal → Bool
  | PyVal.none => true
  | PyVal.bool _ => true
  | PyVal.int _ => true
  | PyVal.str _ => true
  | PyVal.bytes _ => true
  | PyVal.list xs => isPlainList xs
  | PyVal.map kvs => isPlainKVs kvs
  | PyVal.obj _ => false

def isPlainList : List PyVal → Bool
  | [] => true
  | x :: xs => isPlain x && isPlainList xs

def isPlainKVs : List (PyVal × PyVal) → Bool
  | [] => true
  | (k, v) :: ps => (isPlain k && isPlain v) && isPlainKVs ps

end

/-- A response map `{'type': ..., 'value': ...}` as built by the
worker before packing. -/
structure Response where
  rtype : String
  value : PyVal

/-- Model of `msgpack.Packer.pack` applied to a response map: succeeds
on plain payloads (the `'type'` tag is always a plain string), raises
`TypeError` when the payload contains a non-serializable object. -/
def pack (r : Response) : Except Exc Response :=
  if isPlain r.value then Except.ok r
  else Except.error (Exc.typeError "not serializable")

/-- A request map.  Fields read with `request['k']` are `Option`s: a
missing key raises `KeyError`.  `args`/`kwargs` are forwarded to the
external invocation, whose outcome the call oracle supplies. -/
structure Request where
  action : Option String
  provider : Option String
  inst : Option Key
  method : Option String
  args : List PyVal
  kwargs : List (String × PyVal)

/-- The per-connection state the dispatch handlers touch: the shared
Namespace and this worker's acquisition set `_inst_ids` (a Python set,
modelled as a duplicate-free list). -/
structure WorkerState where
  ns : Namespace PyVal
  inst_ids : List Key

/-- Python `set.add`. -/
def pySetAdd (s : List Key) (k : Key) : List Key :=
  if k ∈ s then s else k :: s

/-- Python `set.remove`: raises `KeyError` when the element is absent. -/
def pySetRemove (s : List Key) (k : Key) : Except Exc (List Key) :=
  if k ∈ s then Except.ok (s.filter (fun x => decide (x ≠ k)))
  else Except.error (Exc.keyError "set.remove")

/-- Outcome of an external Python call (type construction, or the
METHOD_HANDLERS / `getattr` method invocation): the produced object
together with its `id()`, or the exception it raised.  The invoked
code is outside the server core, so this is an oracle parameter. -/
abbrev CallResult := Except Exc (PyVal × Nat)

/-- A request key rendered back as a payload value (the literal
`'value': instance` of an open-by-instance reply). -/
def keyToVal : Key → PyVal
  | Key.id n => PyVal.int (Int.ofNat n)
  | Key.name s => PyVal.str s

/-- `Worker._action_open`.  With `provider`: check the type is
registered, construct (oracle), pack a reference reply carrying
`id(obj)`, `add` to the Namespace owned by this worker, record the id
in the acquisition set.  With `instance`: check membership, pack a
reference reply carrying the request key verbatim, `acquire`, record
the key.  Otherwise raise `ValueError`. -/
def Worker._action_open (wid : Nat) (call : CallResult) (st : WorkerState)
    (req : Request) : WorkerState × Except Exc Response :=
  match req.provider with
  | some provider =>
    if dictContains provider st.ns.types then
      match call with
      | Except.error e => (st, Except.error e)
      | Except.ok (obj, objId) =>
        match pack (Response.mk "reference" (PyVal.int (Int.ofNat objId))) with
        | Except.error e => (st, Except.error e)
        | Except.ok response =>
          match Namespace.add st.ns obj objId wid Option.none with
          | Except.error e => (st, Except.error e)
          | Except.ok ns' =>
            ({ ns := ns', inst_ids := pySetAdd st.inst_ids (Key.id objId) },
              Except.ok response)
    else
      (st, Except.error (Exc.typeError "Unknown type"))
  | Option.none =>
    match req.inst with
    | some inst =>
      if Namespace.contains st.ns inst then
        match pack (Response.mk "reference" (keyToVal inst)) with
        | Except.error e => (st, Except.error e)
        | Except.ok response =>
          match Namespace.acquire st.ns inst wid with
          | Except.error e => (st, Except.error e)
          | Except.ok ns' =>
            ({ ns := ns', inst_ids := pySetAdd st.inst_ids inst }, Except.ok response)
      else
        (st, Except.error (Exc.valueError "Unknown instance"))
    | Option.none => (st, Except.error (Exc.valueError "Bad open request"))

/-- `Worker._action_close`: check membership (`KeyError` if absent),
`release` this worker's hold; if fully released, `set.remove` the key
from the acquisition set (note: after the Namespace mutation); reply
`value: None`. -/
def Worker._action_close (wid : Nat) (st : WorkerState) (req : Request) :
    WorkerState × Except Exc Response :=
  match req.inst with
  | Option.none => (st, Except.error (Exc.keyError "instance"))
  | some inst =>
    if Namespace.contains st.ns inst then
      match Namespace.release st.ns inst wid with
      | Except.error e => (st, Except.error e)
      | Except.ok (released, ns') =>
        let st1 : WorkerState := { ns := ns', inst_ids := st.inst_ids }
        if released then
          match pySetRemove st1.inst_ids inst with
          | Except.error e => (st1, Except.error e)
          | Except.ok ids' =>
            match pack (Response.mk "value" PyVal.none) with
            | Except.error e => ({ st1 with inst_ids := ids' }, Except.error e)
            | Except.ok resp => ({ st1 with inst_ids := ids' }, Except.ok resp)
        else
          match pack (Response.mk "value" PyVal.none) with
          | Except.error e => (st1, Except.error e)
          | Except.ok resp => (st1, Except.ok resp)
    else
      (st, Except.error (Exc.keyError "Instance does not exist"))

/-- `Worker._action_execute`: check membership (`KeyError` if absent),
look up the target and invoke the method (oracle); try to pack the
result as a `value` reply; on the packer's `TypeError`, mint
`id(ret)`, pack a `reference` reply, `add` the result to the Namespace
owned by this worker and record the id in the acquisition set. -/
def Worker._action_execute (wid : Nat) (call : CallResult) (st : WorkerState)
    (req : Request) : WorkerState × Except Exc Response :=
  match req.inst with
  | Option.none => (st, Except.error (Exc.keyError "instance"))
  | some inst =>
    if Namespace.contains st.ns inst then
      match req.method with
      | Option.none => (st, Except.error (Exc.keyError "method"))
      | some _method =>
        match Namespace.getitem st.ns inst with
        | Except.error e => (st, Except.error e)
        | Except.ok _target =>
          match call with
          | Except.error e => (st, Except.error e)
          | Except.ok (ret, retId) =>
            match pack (Response.mk "value" ret) with
            | Except.ok resp => (st, Except.ok resp)
            | Except.error _ =>
              match pack (Response.mk "reference" (PyVal.int (Int.ofNat retId))) with
              | Except.error e => (st, Except.error e)
              | Except.ok response =>
                match Namespace.add st.ns ret retId wid Option.none with
                | Except.error e => (st, Except.error e)
                | Except.ok ns' =>
                  ({ ns := ns', inst_ids := pySetAdd st.inst_ids (Key.id retId) },
                    Except.ok response)
    else
      (st, Except.error (Exc.keyError "Instance does not exist"))

/-- The `try`-block body of `Worker._dispatch`: select the handler by
`request['action']` (a missing key raises `KeyError`, an unknown
action raises `ValueError`, both inside the `try`). -/
def Worker.handleAction (wid : Nat) (call : CallResult) (st : WorkerState)
    (req : Request) : WorkerState × Except Exc Response :=
  match req.action with
  | Option.none => (st, Except.error (Exc.keyError "action"))
  | some action =>
    if action = "execute" then Worker._action_execute wid call st req
    else if action = "open" then Worker._action_open wid call st req
    else if action = "close" then Worker._action_close wid st req
    else (st, Except.error (Exc.valueError "Invalid request action"))

/-- `Worker._dispatch` after a request has been received (the
`request is None` shutdown path lives in `dispatchFull`): any
exception from the handler is caught and packed as an `error` response
carrying `traceback.format_exc()` (packing a string never fails); the
response is sent and the method returns `True` so the loop continues. -/
def Worker._dispatch (wid : Nat) (call : CallResult) (st : WorkerState)
    (req : Request) : WorkerState × Response × Bool :=
  match Worker.handleAction wid call st req with
  | (st', Except.ok resp) => (st', resp, true)
  | (st', Except.error e) => (st', Response.mk "error" (PyVal.str (format_exc e)), true)

/-- The streaming unpacker's state: its internal byte buffer. -/
structure Unpacker where
  buf : List Nat

/-- The encoder/decoder pair created by `Worker._init_serdes`: a
(stateless) packer and an unpacker with an empty buffer. -/
structure Serdes where
  packer : Unit
  unpacker : Unpacker

/-- `Worker._init_serdes`: fresh packer and unpacker. -/
def Worker._init_serdes : Serdes := { packer := (), unpacker := { buf := [] } }

/-- One attempt of the unpacker's iterator after a `feed`: either no
complete message is buffered yet, or it yields one message (keeping
the trailing bytes), or iterating raises a decode error.  msgpack is
an external collaborator, so the decoder is an oracle parameter. -/
inductive DecodeStep where
  | needMore
  | frame (req : Request) (rest : List Nat)
  | fail (e : Exc)

/-- How one `Worker._receive` call ends. -/
inductive RecvResult where
  | req (r : Request)
  | eof
  | blocked
  | exc (e : Exc)

/-- `Worker._receive`: feed socket chunks into the unpacker until it
yields a message.  An empty chunk means the stream ended (`None`).  A
decode error re-initializes the serdes pair and re-raises.  When the
modelled chunk trace runs out the real worker would block in `recv`. -/
def Worker._receive (decode : List Nat → DecodeStep) (sd : Serdes) :
    List (List Nat) → Serdes × RecvResult
  | [] => (sd, RecvResult.blocked)
  | c :: rest =>
    if c.isEmpty then (sd, RecvResult.eof)
    else
      let sd1 : Serdes := { sd with unpacker := { buf := sd.unpacker.buf ++ c } }
      match decode sd1.unpacker.buf with
      | DecodeStep.needMore => Worker._receive decode sd1 rest
      | DecodeStep.frame req restBuf =>
        ({ sd1 with unpacker := { buf := restBuf } }, RecvResult.req req)
      | DecodeStep.fail e => (Worker._init_serdes, RecvResult.exc e)

/-- How one full receive-dispatch-send iteration ends. -/
inductive StepOutcome where
  | responded (resp : Response)
  | shutdown
  | blocked
  | raised (e : Exc)

/-- One full `Worker._dispatch` call including the receive: a receive
exception propagates (it is raised outside the `try`); a `None`
request returns `False` (orderly shutdown). -/
def Worker.dispatchFull (wid : Nat) (decode : List Nat → DecodeStep) (call : CallResult)
    (sd : Serdes) (st : WorkerState) (chunks : List (List Nat)) :
    Serdes × WorkerState × StepOutcome :=
  match Worker._receive decode sd chunks with
  | (sd', RecvResult.exc e) => (sd', st, StepOutcome.raised e)
  | (sd', RecvResult.eof) => (sd', st, StepOutcome.shutdown)
  | (sd', RecvResult.blocked) => (sd', st, StepOutcome.blocked)
  | (sd', RecvResult.req r) =>
    match Worker._dispatch wid call st r with
    | (st', resp, _) => (sd', st', StepOutcome.responded resp)

/-- One loop iteration's external input: the byte chunks the socket
delivers and the oracle outcome of whatever external call the decoded
request triggers. -/
structure LoopInput where
  chunks : List (List Nat)
  call : CallResult

/-- Why the `while self._dispatch()` loop ended. -/
inductive LoopExit where
  | disconnected
  | raised (e : Exc)
  | stuck

/-- The worker's receive loop (`while self._dispatch(): continue`). -/
def Worker.runLoop (wid : Nat) (decode : List Nat → DecodeStep) :
    List LoopInput → Serdes → WorkerState → Serdes × WorkerState × LoopExit
  | [], sd, st => (sd, st, LoopExit.stuck)
  | inp :: rest, sd, st =>
    match Worker.dispatchFull wid decode inp.call sd st inp.chunks with
    | (sd', st', StepOutcome.responded _) => Worker.runLoop wid decode rest sd' st'
    | (sd', st', StepOutcome.shutdown) => (sd', st', LoopExit.disconnected)
    | (sd', st', StepOutcome.blocked) => (sd', st', LoopExit.stuck)
    | (sd', st', StepOutcome.raised e) => (sd', st', LoopExit.raised e)

/-- What `Worker.run`'s `finally` block leaves behind when the loop
has exited: the socket is closed, then — under the Namespace lock —
the worker's full acquisition set is released. -/
structure RunResult where
  socketClosed : Bool
  preNs : Namespace PyVal
  preIds : List Key
  ns : Except Exc (Namespace PyVal)

/-- `Worker.run`: drive the loop to its exit, then run the `finally`:
close the client socket and `release_all` the acquisition set.  `none`
when the trace ends with the worker still blocked in `recv` — the loop
has not exited and the cleanup has not run. -/
def Worker.run (wid : Nat) (decode : List Nat → DecodeStep) (inputs : List LoopInput)
    (sd : Serdes) (st : WorkerState) : Option RunResult :=
  match Worker.runLoop wid decode inputs sd st with
  | (_, _, LoopExit.stuck) => Option.none
  | (_, st', LoopExit.disconnected) =>
    some { socketClosed := true, preNs := st'.ns, preIds := st'.inst_ids,
           ns := Namespace.release_all st'.ns st'.inst_ids wid }
  | (_, st', LoopExit.raised _) =>
    some { socketClosed := true, preNs := st'.ns, preIds := st'.inst_ids,
           ns := Namespace.release_all st'.ns st'.inst_ids wid }

/-- Owner `o` has a reference-table entry for key `k` (only int ids
ever have entries). -/
def ownerHolds {Obj : Type} (ns : Namespace Obj) (k : Key) (o : Nat) : Bool :=
  match k with
  | Key.id n =>
    match dictLookup n ns.ref_counts with
    | some rc => dictContains o rc
    | Option.none => false
  | Key.name _ => false

/-- Some owner other than `o` has a reference-table entry for `k`. -/
def otherOwnerHolds {Obj : Type} (ns : Namespace Obj) (k : Key) (o : Nat) : Bool :=
  match k with
  | Key.id n =>
    match dictLookup n ns.ref_counts with
    | some rc => !(dictErase o rc).isEmpty
    | Option.none => false
  | Key.name _ => false

/-- The worker-local acquisition-set invariant: the set has no
duplicates, every stored reference count in the registry is ≥ 1, and
every key in the set is an int id that is present in instance storage
and whose reference table carries an entry for this worker. -/
def WInv (wid : Nat) (st : WorkerState) : Prop :=
  st.inst_ids.Nodup ∧
  (∀ n rc, dictLookup n st.ns.ref_counts = some rc → ∀ p ∈ rc, 1 ≤ p.2) ∧
  ∀ k ∈ st.inst_ids, ∃ n rc, k = Key.id n ∧
    dictContains n st.ns.instances = true ∧
    dictLookup n st.ns.ref_counts = some rc ∧ dictContains wid rc = true

/-! ### Concrete states for evaluating theorems -/

/-- An empty registry over `PyVal` instance objects. -/
def emptyNsPy : Namespace PyVal :=
  { types := [], instances := [], instances_by_name := [], ref_counts := [] }

/-- A fresh worker state over the empty registry. -/
def emptyWS : WorkerState := { ns := emptyNsPy, inst_ids := [] }

/-- A loop input whose first socket chunk is empty: orderly EOF. -/
def eofInput : LoopInput := { chunks := [[]], call := Except.error (Exc.valueError "unused") }

/-- The run result of a worker that reads EOF immediately over the
empty registry. -/
def witRun : RunResult :=
  { socketClosed := true, preNs := emptyNsPy, preIds := [], ns := Except.ok emptyNsPy }

/-- A registry where ids 1 and 2 are held by worker 7, id 1 also by
worker 9. -/
def cleanup2Ns : Namespace PyVal :=
  { types := [], instances := [(1, PyVal.int 0), (2, PyVal.int 0)],
    instances_by_name := [],
    ref_counts := [(1, [(7, 1), (9, 2)]), (2, [(7, 1)])] }

/-- A registry where instance object `0` is stored under id 1 (held by
worker 9) and is also bound to the name `"obj"`. -/
def namedNs : Namespace PyVal :=
  { types := [], instances := [(1, PyVal.int 0)],
    instances_by_name := [("obj", PyVal.int 0)],
    ref_counts := [(1, [(9, 1)])] }

/-- A worker (id 5) with an empty acquisition set over `namedNs`. -/
def namedWS : WorkerState := { ns := namedNs, inst_ids := [] }

/-- An open request addressing the existing instance by its name. -/
def openByNameReq : Request :=
  { action := some "open", provider := Option.none, inst := some (Key.name "obj"),
    method := Option.none, args := [], kwargs := [] }

/-- A registry where instance object `0` is stored under id 1, held
once by worker 5. -/
def closeNs : Namespace PyVal :=
  { types := [], instances := [(1, PyVal.int 0)], instances_by_name := [],
    ref_counts := [(1, [(5, 1)])] }

/-- Worker 5's state holding id 1 of `closeNs`. -/
def closeWS : WorkerState := { ns := closeNs, inst_ids := [Key.id 1] }

/-- A close request for id 1. -/
def closeReqC : Request :=
  { action := some "close", provider := Option.none, inst := some (Key.id 1),
    method := Option.none, args := [], kwargs := [] }

/-- An execute request for id 1 (method `"m"`). -/
def execReq : Request :=
  { action := some "execute", provider := Option.none, inst := some (Key.id 1),
    method := some "m", args := [], kwargs := [] }

/-- `closeNs` after worker 5 adds the non-serializable result
`PyVal.obj 42` under the freshly minted id 99. -/
def nsAfterAdd99 : Namespace PyVal :=
  { types := [], instances := [(99, PyVal.obj 42), (1, PyVal.int 0)],
    instances_by_name := [],
    ref_counts := [(99, [(5, 1)]), (1, [(5, 1)])] }

/-- A decoder that raises on any buffered bytes. -/
def decodeFailFn : List Nat → DecodeStep := fun _ => DecodeStep.fail (Exc.valueError "bad frame")

/-- A loop input delivering one non-empty chunk (which `decodeFailFn`
will reject). -/
def failInput : LoopInput := { chunks := [[1]], call := Except.error (Exc.valueError "unused") }

/-- A request with an action outside {open, close, execute}. -/
def bogusReq : Request :=
  { action := some "bogus", provider := Option.none, inst := Option.none,
    method := Option.none, args := [], kwargs := [] }

/-! ## Theorems -/

section DictLemmas

variable {K V : Type} [DecidableEq K]

@[simp] theorem dictLookup_nil (k : K) : dictLookup (V := V) k [] = Option.none := rfl

@[simp] theorem dictLookup_cons (k : K) (p : K × V) (l : List (K × V)) :
    dictLookup k (p :: l) = if p.1 = k then some p.2 else dictLookup k l := rfl

@[simp] theorem dictErase_nil (k : K) : dictErase (V := V) k [] = [] := rfl

theorem dictLookup_erase_self (k : K) (l : List (K × V)) :
    dictLookup k (dictErase k l) = Option.none := by
  induction l with
  | nil => rfl
  | cons p rest ih =>
    by_cases h : p.1 = k <;> simp [dictErase, h, ih]

theorem dictLookup_erase_ne (k k' : K) (l : List (K × V)) (h : k ≠ k') :
    dictLookup k' (dictErase k l) = dictLookup k' l := by
  induction l with
  | nil => rfl
  | cons p rest ih =>
    by_cases hp : p.1 = k
    · rw [dictErase, if_pos hp, ih, dictLookup_cons, if_neg]
      intro hc
      rw [hp] at hc
      exact h hc
    · rw [dictErase, if_neg hp, dictLookup_cons, dictLookup_cons, ih]

@[simp] theorem dictLookup_insert_self (k : K) (v : V) (l : List (K × V)) :
    dictLookup k (dictInsert k v l) = some v := by
  rw [dictInsert, dictLookup_cons, if_pos rfl]

theorem dictLookup_insert_ne (k k' : K) (v : V) (l : List (K × V)) (h : k ≠ k') :
    dictLookup k' (dictInsert k v l) = dictLookup k' l := by
  rw [dictInsert, dictLookup_cons, if_neg h, dictLookup_erase_ne k k' l h]

theorem dictContains_iff (k : K) (l : List (K × V)) :
    dictContains k l = true ↔ ∃ v, dictLookup k l = some v := by
  simp [dictContains, Option.isSome_iff_exists]

theorem dictErase_keys_subset (k : K) (l : List (K × V)) :
    (dictErase k l).map Prod.fst ⊆ l.map Prod.fst := by
  induction l with
  | nil => intro a ha; exact ha
  | cons p rest ih =>
    intro a ha
    by_cases hp : p.1 = k
    · rw [dictErase, if_pos hp] at ha
      exact List.mem_cons_of_mem _ (ih ha)
    · rw [dictErase, if_neg hp, List.map_cons] at ha
      rw [List.map_cons]
      rcases List.mem_cons.mp ha with ha | ha
      · exact List.mem_cons.mpr (Or.inl ha)
      · exact List.mem_cons.mpr (Or.inr (ih ha))

theorem nodup_dictErase (k : K) (l : List (K × V))
    (h : (l.map Prod.fst).Nodup) : ((dictErase k l).map Prod.fst).Nodup := by
  induction l with
  | nil => exact h
  | cons p rest ih =>
    rw [List.map_cons, List.nodup_cons] at h
    by_cases hp : p.1 = k
    · rw [dictErase, if_pos hp]
      exact ih h.2
    · rw [dictErase, if_neg hp, List.map_cons, List.nodup_cons]
      exact ⟨fun hmem => h.1 (dictErase_keys_subset k rest hmem), ih h.2⟩

theorem dictLookup_isSome_of_mem (p : K × V) (l : List (K × V)) (hp : p ∈ l) :
    dictLookup p.1 l ≠ Option.none := by
  induction l with
  | nil => cases hp
  | cons q rest ih =>
    rw [dictLookup_cons]
    by_cases hq : q.1 = p.1
    · rw [if_pos hq]
      intro hc
      cases hc
    · rw [if_neg hq]
      rcases List.mem_cons.mp hp with hpq | hp'
      · rw [hpq] at hq
        exact absurd rfl hq
      · exact ih hp'

theorem not_mem_keys_dictErase (k : K) (l : List (K × V)) :
    k ∉ (dictErase k l).map Prod.fst := by
  intro hmem
  rcases List.mem_map.mp hmem with ⟨p, hp, hpk⟩
  have hne := dictLookup_isSome_of_mem p (dictErase k l) hp
  rw [hpk] at hne
  exact hne (dictLookup_erase_self k l)

theorem nodup_dictInsert (k : K) (v : V) (l : List (K × V))
    (h : (l.map Prod.fst).Nodup) :
    ((dictInsert k v l).map Prod.fst).Nodup := by
  rw [dictInsert, List.map_cons, List.nodup_cons]
  exact ⟨not_mem_keys_dictErase k l, nodup_dictErase k l h⟩

theorem dictErase_idem (k : K) (l : List (K × V)) :
    dictErase k (dictErase k l) = dictErase k l := by
  induction l with
  | nil => rfl
  | cons p rest ih =>
    by_cases hp : p.1 = k
    · rw [dictErase, if_pos hp, ih]
    · rw [dictErase, if_neg hp, dictErase, if_neg hp, ih]

theorem dictErase_insert_self (k : K) (v : V) (l : List (K × V)) :
    dictErase k (dictInsert k v l) = dictErase k l := by
  simp [dictInsert, dictErase, dictErase_idem]

theorem mem_of_mem_dictErase {p : K × V} (k : K) (l : List (K × V))
    (hp : p ∈ dictErase k l) : p ∈ l := by
  induction l with
  | nil => exact absurd hp (by rw [dictErase_nil]; exact List.not_mem_nil p)
  | cons q rest ih =>
    by_cases hq : q.1 = k
    · rw [dictErase, if_pos hq] at hp
      exact List.mem_cons_of_mem _ (ih hp)
    · rw [dictErase, if_neg hq] at hp
      rcases List.mem_cons.mp hp with h | h
      · exact List.mem_cons.mpr (Or.inl h)
      · exact List.mem_cons.mpr (Or.inr (ih h))

theorem mem_of_dictLookup {k : K} {v : V} {l : List (K × V)}
    (h : dictLookup k l = some v) : (k, v) ∈ l := by
  induction l with
  | nil => cases h
  | cons p rest ih =>
    rw [dictLookup_cons] at h
    by_cases hp : p.1 = k
    · rw [if_pos hp] at h
      injection h with h
      have hpv : p = (k, v) := by
        cases p
        cases hp
        cases h
        rfl
      rw [← hpv]
      exact List.mem_cons_self p rest
    · rw [if_neg hp] at h
      exact List.mem_cons_of_mem _ (ih h)

end DictLemmas

theorem bumpOwner_props (rc : List (Nat × Int)) (o : Nat)
    (hpos : ∀ p ∈ rc, 1 ≤ p.2) (hnd : (rc.map Prod.fst).Nodup) :
    Namespace.bumpOwner rc o ≠ [] ∧ (∀ p ∈ Namespace.bumpOwner rc o, 1 ≤ p.2) ∧
    ((Namespace.bumpOwner rc o).map Prod.fst).Nodup := by
  rw [Namespace.bumpOwner]
  cases hl : dictLookup o rc with
  | none =>
    refine ⟨by simp [dictInsert], ?_, nodup_dictInsert o 1 rc hnd⟩
    intro p hp
    rw [dictInsert] at hp
    rcases List.mem_cons.mp hp with h | h
    · rw [h]
    · exact hpos p (mem_of_mem_dictErase o rc h)
  | some c =>
    refine ⟨by simp [dictInsert], ?_, nodup_dictInsert o (c + 1) rc hnd⟩
    intro p hp
    rw [dictInsert] at hp
    rcases List.mem_cons.mp hp with h | h
    · have hc : 1 ≤ c := hpos (o, c) (mem_of_dictLookup hl)
      rw [h]
      omega
    · exact hpos p (mem_of_mem_dictErase o rc h)

theorem refLocalInv_applyRefOp {Obj : Type} (iid : Nat) (obj : Obj) (ns : Namespace Obj)
    (op : RefOp) (h : RefLocalInv iid ns) : RefLocalInv iid (applyRefOp iid obj ns op) := by
  obtain ⟨habs, hpres⟩ := h
  have hContr : dictContains iid ns.instances = true →
      ∃ rc, dictLookup iid ns.ref_counts = some rc := by
    intro hc
    cases hl : dictLookup iid ns.ref_counts with
    | none => rw [habs hl] at hc; cases hc
    | some rc => exact ⟨rc, rfl⟩
  cases op with
  | add o =>
    by_cases hc : dictContains iid ns.instances = true
    · obtain ⟨rc, hrc⟩ := hContr hc
      obtain ⟨_, hne, hpos, hnd⟩ := hpres rc hrc
      have hb := bumpOwner_props rc o hpos hnd
      have hstep : applyRefOp iid obj ns (RefOp.add o) =
          { ns with ref_counts := dictInsert iid (Namespace.bumpOwner rc o) ns.ref_counts } := by
        simp [applyRefOp, Namespace.add, hc, hrc]
      rw [hstep]
      constructor
      · intro hl
        rw [dictLookup_insert_self] at hl
        cases hl
      · intro rc' hl
        rw [dictLookup_insert_self] at hl
        injection hl with hl
        rw [← hl]
        exact ⟨hc, hb⟩
    · have hcf : dictContains iid ns.instances = false := by
        cases hcv : dictContains iid ns.instances with
        | false => rfl
        | true => exact absurd hcv hc
      have hstep : applyRefOp iid obj ns (RefOp.add o) =
          { ns with
            instances := dictInsert iid obj ns.instances,
            ref_counts := dictInsert iid [(o, 1)] ns.ref_counts } := by
        simp [applyRefOp, Namespace.add, hcf]
      rw [hstep]
      constructor
      · intro hl
        rw [dictLookup_insert_self] at hl
        cases hl
      · intro rc' hl
        rw [dictLookup_insert_self] at hl
        injection hl with hl
        rw [← hl]
        refine ⟨?_, by simp, ?_, by simp⟩
        · simp [dictContains]
        · intro p hp
          rcases List.mem_singleton.mp hp with h
          rw [h]
  | acq o =>
    cases hrc : dictLookup iid ns.ref_counts with
    | none =>
      have hstep : applyRefOp iid obj ns (RefOp.acq o) = ns := by
        simp [applyRefOp, Namespace.acquire, hrc]
      rw [hstep]
      exact ⟨habs, hpres⟩
    | some rc =>
      obtain ⟨hc, hne, hpos, hnd⟩ := hpres rc hrc
      have hb := bumpOwner_props rc o hpos hnd
      have hstep : applyRefOp iid obj ns (RefOp.acq o) =
          { ns with ref_counts := dictInsert iid (Namespace.bumpOwner rc o) ns.ref_counts } := by
        simp [applyRefOp, Namespace.acquire, hrc]
      rw [hstep]
      constructor
      · intro hl
        rw [dictLookup_insert_self] at hl
        cases hl
      · intro rc' hl
        rw [dictLookup_insert_self] at hl
        injection hl with hl
        rw [← hl]
        exact ⟨hc, hb⟩
  | rel o =>
    cases hrc : dictLookup iid ns.ref_counts with
    | none =>
      have hstep : applyRefOp iid obj ns (RefOp.rel o) = ns := by
        simp [applyRefOp, Namespace.release, hrc]
      rw [hstep]
      exact ⟨habs, hpres⟩
    | some rc =>
      obtain ⟨hc, hne, hpos, hnd⟩ := hpres rc hrc
      cases ho : dictLookup o rc with
      | none =>
        have hstep : applyRefOp iid obj ns (RefOp.rel o) = ns := by
          simp [applyRefOp, Namespace.release, hrc, ho]
        rw [hstep]
        exact ⟨habs, hpres⟩
      | some c =>
        have herase : dictErase o (dictInsert o (c - 1) rc) = dictErase o rc :=
          dictErase_insert_self o (c - 1) rc
        by_cases hz : c - 1 < 1
        · by_cases hemp : (dictErase o rc).isEmpty = true
          · have hstep : applyRefOp iid obj ns (RefOp.rel o) =
                { ns with
                  ref_counts := dictErase iid ns.ref_counts,
                  instances := dictErase iid ns.instances } := by
              simp [applyRefOp, Namespace.release, hrc, ho, hz, herase, hemp]
            rw [hstep]
            constructor
            · intro _
              simp [dictContains, dictLookup_erase_self]
            · intro rc' hl
              rw [dictLookup_erase_self] at hl
              cases hl
          · have hstep : applyRefOp iid obj ns (RefOp.rel o) =
                { ns with
                  ref_counts := dictInsert iid (dictErase o rc) ns.ref_counts } := by
              simp [applyRefOp, Namespace.release, hrc, ho, hz, herase, hemp]
            rw [hstep]
            constructor
            · intro hl
              rw [dictLookup_insert_self] at hl
              cases hl
            · intro rc' hl
              rw [dictLookup_insert_self] at hl
              injection hl with hl
              rw [← hl]
              refine ⟨hc, ?_, ?_, nodup_dictErase o rc hnd⟩
              · intro hnil
                rw [hnil] at hemp
                exact hemp rfl
              · intro p hp
                exact hpos p (mem_of_mem_dictErase o rc hp)
        · have hstep : applyRefOp iid obj ns (RefOp.rel o) =
              { ns with
                ref_counts := dictInsert iid (dictInsert o (c - 1) rc) ns.ref_counts } := by
            simp [applyRefOp, Namespace.release, hrc, ho, hz]
          rw [hstep]
          constructor
          · intro hl
            rw [dictLookup_insert_self] at hl
            cases hl
          · intro rc' hl
            rw [dictLookup_insert_self] at hl
            injection hl with hl
            rw [← hl]
            refine ⟨hc, by simp [dictInsert], ?_, nodup_dictInsert o (c - 1) rc hnd⟩
            intro p hp
            rw [dictInsert] at hp
            rcases List.mem_cons.mp hp with h | h
            · rw [h]
              simp only []
              omega
            · exact hpos p (mem_of_mem_dictErase o rc h)

theorem refLocalInv_runRefOps {Obj : Type} (iid : Nat) (obj : Obj) (ops : List RefOp) :
    ∀ ns : Namespace Obj, RefLocalInv iid ns → RefLocalInv iid (runRefOps iid obj ns ops) := by
  induction ops with
  | nil => intro ns h; exact h
  | cons op rest ih =>
    intro ns h
    exact ih (applyRefOp iid obj ns op) (refLocalInv_applyRefOp iid obj ns op h)

theorem rcSum_pos (rc : List (Nat × Int)) (hne : rc ≠ []) (hpos : ∀ p ∈ rc, 1 ≤ p.2) :
    0 < (rc.map Prod.snd).sum := by
  cases rc with
  | nil => exact absurd rfl hne
  | cons p rest =>
    rw [List.map_cons, List.sum_cons]
    have h1 : 1 ≤ p.2 := hpos p (List.mem_cons_self p rest)
    have h2 : 0 ≤ (rest.map Prod.snd).sum := by
      refine List.sum_nonneg ?_
      intro x hx
      rcases List.mem_map.mp hx with ⟨q, hq, hqx⟩
      have hq1 := hpos q (List.mem_cons_of_mem p hq)
      omega
    omega

theorem present_iff_sum_pos_of_inv {Obj : Type} (iid : Nat) (ns : Namespace Obj)
    (h : RefLocalInv iid ns) :
    (presentInst iid ns = true ↔ 0 < sumCounts iid ns) ∧ 0 ≤ sumCounts iid ns := by
  obtain ⟨habs, hpres⟩ := h
  cases hrc : dictLookup iid ns.ref_counts with
  | none =>
    have hcf := habs hrc
    constructor
    · rw [presentInst, hcf]
      simp [sumCounts, hrc]
    · simp [sumCounts, hrc]
  | some rc =>
    obtain ⟨hc, hne, hpos, _⟩ := hpres rc hrc
    have hsum : 0 < (rc.map Prod.snd).sum := rcSum_pos rc hne hpos
    constructor
    · rw [presentInst, hc]
      simp [sumCounts, hrc, hsum]
    · simp only [sumCounts, hrc]
      exact le_of_lt hsum

theorem runRefOps_append {Obj : Type} (iid : Nat) (obj : Obj) (ns : Namespace Obj)
    (ops : List RefOp) (op : RefOp) :
    runRefOps iid obj ns (ops ++ [op]) = applyRefOp iid obj (runRefOps iid obj ns ops) op := by
  induction ops generalizing ns with
  | nil => rfl
  | cons p rest ih => rw [List.cons_append, runRefOps, runRefOps, ih]

/-- C1: for every sequence of `add`/`acquire`/`release` calls on one
instance id starting from a registry where the id is absent, the
instance is present in instance storage iff the sum of all per-owner
reference counts for that id is positive (first conjunct, holding after
every prefix since `ops` ranges over all sequences); and a call removes
the instance (present before, absent after) exactly when it takes the
positive sum to 0 — so over any lifetime the instance is removed
exactly once, at the call where the sum first reaches 0 (second
conjunct).  Releases by owners without a positive count raise in the
Python code before mutating anything and so are modelled as leaving the
state unchanged; the theorem therefore needs no validity guard on the
sequence. -/
theorem refcount_conservation {Obj : Type} (iid : Nat) (obj : Obj) (ns₀ : Namespace Obj)
    (h₀ : dictLookup iid ns₀.ref_counts = Option.none ∧
      dictContains iid ns₀.instances = false)
    (ops : List RefOp) :
    (presentInst iid (runRefOps iid obj ns₀ ops) = true ↔
      0 < sumCounts iid (runRefOps iid obj ns₀ ops)) ∧
    (∀ op : RefOp,
      (presentInst iid (runRefOps iid obj ns₀ ops) = true ∧
        presentInst iid (runRefOps iid obj ns₀ (ops ++ [op])) = false) ↔
      (0 < sumCounts iid (runRefOps iid obj ns₀ ops) ∧
        sumCounts iid (runRefOps iid obj ns₀ (ops ++ [op])) = 0)) := by
  have hinv0 : RefLocalInv iid ns₀ := by
    constructor
    · intro _
      exact h₀.2
    · intro rc hl
      rw [h₀.1] at hl
      cases hl
  have hI := refLocalInv_runRefOps iid obj ops ns₀ hinv0
  have hmain := present_iff_sum_pos_of_inv iid _ hI
  refine ⟨hmain.1, ?_⟩
  intro op
  have hI' := refLocalInv_runRefOps iid obj (ops ++ [op]) ns₀ hinv0
  have hmain' := present_iff_sum_pos_of_inv iid _ hI'
  constructor
  · rintro ⟨hp, hp'⟩
    refine ⟨hmain.1.mp hp, ?_⟩
    by_contra hne
    have hpos : 0 < sumCounts iid (runRefOps iid obj ns₀ (ops ++ [op])) := by
      rcases lt_or_eq_of_le hmain'.2 with h | h
      · exact h
      · exact absurd h.symm hne
    have hbt := hmain'.1.mpr hpos
    rw [hbt] at hp'
    cases hp'
  · rintro ⟨hs, hs'⟩
    refine ⟨hmain.1.mpr hs, ?_⟩
    cases hb : presentInst iid (runRefOps iid obj ns₀ (ops ++ [op])) with
    | false => rfl
    | true =>
      have := hmain'.1.mp hb
      omega

theorem refcount_conservation_witness :
    presentInst 1 (runRefOps 1 5 emptyNsNat [RefOp.add 7, RefOp.acq 9, RefOp.rel 7]) = true ↔
      0 < sumCounts 1 (runRefOps 1 5 emptyNsNat [RefOp.add 7, RefOp.acq 9, RefOp.rel 7]) :=
  (refcount_conservation 1 5 emptyNsNat ⟨rfl, rfl⟩
    [RefOp.add 7, RefOp.acq 9, RefOp.rel 7]).1

/-- C8 counterexample: with name `"n"` already bound to instance
object `0`, `Namespace.add` of the different instance object `1`
(id 2, owner 7) under the same name does not fail with a Conflict — it
succeeds, and the name is re-bound to the new instance. -/
theorem add_name_conflict_counterexample :
    (match Namespace.add conflictNs 1 2 7 (some "n") with
      | Except.ok ns' => dictLookup "n" ns'.instances_by_name
      | Except.error _ => Option.none) = some 1 := rfl

theorem add_some_name_ok {Obj : Type} (ns : Namespace Obj) (inst : Obj)
    (inst_id owner : Nat) (nm : String)
    (hcoh : dictContains inst_id ns.instances = true →
      dictContains inst_id ns.ref_counts = true) :
    ∃ ns', Namespace.add ns inst inst_id owner (some nm) = Except.ok ns' ∧
      ns'.instances_by_name = dictInsert nm inst ns.instances_by_name := by
  by_cases hc : dictContains inst_id ns.instances = true
  · have hrc := hcoh hc
    obtain ⟨rc, hrcl⟩ := (dictContains_iff inst_id ns.ref_counts).mp hrc
    refine ⟨{ ns with
        ref_counts := dictInsert inst_id (Namespace.bumpOwner rc owner) ns.ref_counts,
        instances_by_name := dictInsert nm inst ns.instances_by_name }, ?_, rfl⟩
    simp [Namespace.add, hc, hrcl]
  · have hcf : dictContains inst_id ns.instances = false := by
      cases hcv : dictContains inst_id ns.instances with
      | false => rfl
      | true => exact absurd hcv hc
    refine ⟨{ ns with
        instances := dictInsert inst_id inst ns.instances,
        ref_counts := dictInsert inst_id [(owner, 1)] ns.ref_counts,
        instances_by_name := dictInsert nm inst ns.instances_by_name }, ?_, rfl⟩
    simp [Namespace.add, hcf]

/-- C8 (amended): `Namespace.add` with a `name` argument never raises
a Conflict: whenever the two id-keyed tables are coherent at `inst_id`
(true in every reachable state), the call succeeds and binds the name
to the given instance, overwriting any existing binding.  The
name-collision check lives in the caller `Server.register`, which
rejects any name already present in the Namespace before invoking
`add`. -/
theorem add_binds_name_unconditionally {Obj : Type} (ns : Namespace Obj) (inst : Obj)
    (inst_id owner : Nat) (nm : String)
    (hcoh : dictContains inst_id ns.instances = true →
      dictContains inst_id ns.ref_counts = true) :
    (∃ ns', Namespace.add ns inst inst_id owner (some nm) = Except.ok ns' ∧
      dictLookup nm ns'.instances_by_name = some inst) ∧
    (Namespace.contains ns (Key.name nm) = true →
      ∀ sid, Server.register ns inst inst_id sid nm =
        Except.error (Exc.keyError "An instance by name already exists")) := by
  constructor
  · obtain ⟨ns', hok, hby⟩ := add_some_name_ok ns inst inst_id owner nm hcoh
    refine ⟨ns', hok, ?_⟩
    rw [hby]
    exact dictLookup_insert_self nm inst ns.instances_by_name
  · intro hn sid
    simp [Server.register, hn]

theorem add_binds_name_unconditionally_witness :
    (∃ ns', Namespace.add conflictNs 3 2 7 (some "n") = Except.ok ns' ∧
      dictLookup "n" ns'.instances_by_name = some 3) ∧
    (Namespace.contains conflictNs (Key.name "n") = true →
      ∀ sid, Server.register conflictNs 3 2 sid "n" =
        Except.error (Exc.keyError "An instance by name already exists")) :=
  add_binds_name_unconditionally conflictNs 3 2 7 "n" (by decide)

theorem release_cases {Obj : Type} (ns : Namespace Obj) (n o : Nat)
    (rc : List (Nat × Int)) (c : Int)
    (hrc : dictLookup n ns.ref_counts = some rc) (ho : dictLookup o rc = some c) :
    Namespace.release ns (Key.id n) o =
      (if c - 1 < 1 then
        (if (dictErase o rc).isEmpty then
          Except.ok (true, { ns with
            ref_counts := dictErase n ns.ref_counts,
            instances := dictErase n ns.instances })
        else
          Except.ok (true, { ns with
            ref_counts := dictInsert n (dictErase o rc) ns.ref_counts }))
      else
        Except.ok (false, { ns with
          ref_counts := dictInsert n (dictInsert o (c - 1) rc) ns.ref_counts })) := by
  simp [Namespace.release, hrc, ho, dictErase_insert_self]

theorem release_all_cons {Obj : Type} (ns : Namespace Obj) (n o : Nat) (rest : List Key)
    (rc : List (Nat × Int)) (c : Int)
    (hrc : dictLookup n ns.ref_counts = some rc) (ho : dictLookup o rc = some c) :
    Namespace.release_all ns (Key.id n :: rest) o =
      Namespace.release_all
        (if (dictErase o rc).isEmpty then
          { ns with
            ref_counts := dictErase n ns.ref_counts,
            instances := dictErase n ns.instances }
        else
          { ns with ref_counts := dictInsert n (dictErase o rc) ns.ref_counts })
        rest o := by
  by_cases hemp : (dictErase o rc).isEmpty = true
  · simp [Namespace.release_all, hrc, ho, hemp]
  · simp [Namespace.release_all, hrc, ho, hemp]

theorem release_frame {Obj : Type} (ns : Namespace Obj) (k : Key) (o : Nat) (b : Bool)
    (ns' : Namespace Obj) (h : Namespace.release ns k o = Except.ok (b, ns')) :
    ns'.instances_by_name = ns.instances_by_name ∧ ns'.types = ns.types := by
  cases k with
  | name s => simp [Namespace.release] at h
  | id n =>
    cases hrc : dictLookup n ns.ref_counts with
    | none => simp [Namespace.release, hrc] at h
    | some rc =>
      cases ho : dictLookup o rc with
      | none => simp [Namespace.release, hrc, ho] at h
      | some c =>
        rw [release_cases ns n o rc c hrc ho] at h
        by_cases hz : c - 1 < 1
        · rw [if_pos hz] at h
          by_cases hemp : (dictErase o rc).isEmpty = true
          · rw [if_pos hemp] at h
            injection h with h
            injection h with h1 h2
            subst h2
            exact ⟨rfl, rfl⟩
          · rw [if_neg hemp] at h
            injection h with h
            injection h with h1 h2
            subst h2
            exact ⟨rfl, rfl⟩
        · rw [if_neg hz] at h
          injection h with h
          injection h with h1 h2
          subst h2
          exact ⟨rfl, rfl⟩

theorem release_all_frame {Obj : Type} (ids : List Key) :
    ∀ (ns : Namespace Obj) (o : Nat) (ns' : Namespace Obj),
      Namespace.release_all ns ids o = Except.ok ns' →
      ns'.instances_by_name = ns.instances_by_name ∧ ns'.types = ns.types := by
  induction ids with
  | nil =>
    intro ns o ns' h
    rw [Namespace.release_all] at h
    injection h with h
    subst h
    exact ⟨rfl, rfl⟩
  | cons k rest ih =>
    intro ns o ns' h
    cases k with
    | name s => simp [Namespace.release_all] at h
    | id n =>
      cases hrc : dictLookup n ns.ref_counts with
      | none => simp [Namespace.release_all, hrc] at h
      | some rc =>
        cases ho : dictLookup o rc with
        | none => simp [Namespace.release_all, hrc, ho] at h
        | some c =>
          rw [release_all_cons ns n o rest rc c hrc ho] at h
          by_cases hemp : (dictErase o rc).isEmpty = true
          · rw [if_pos hemp] at h
            have hrec := ih { ns with
              ref_counts := dictErase n ns.ref_counts,
              instances := dictErase n ns.instances } o ns' h
            exact hrec
          · rw [if_neg hemp] at h
            have hrec := ih { ns with
              ref_counts := dictInsert n (dictErase o rc) ns.ref_counts } o ns' h
            exact hrec

/-- C10: `Namespace.release` and `Namespace.release_all` modify only
the reference-count table and the id-keyed instance storage, never the
name table (or the type table); consequently, when an instance that
was bound to a name is removed because its reference table emptied,
the name stays bound: a contains check by that name still answers true
and a lookup by that name still returns the destroyed instance
object. -/
theorem release_preserves_name_table {Obj : Type} :
    (∀ (ns : Namespace Obj) (k : Key) (o : Nat) (b : Bool) (ns' : Namespace Obj),
      Namespace.release ns k o = Except.ok (b, ns') →
      ns'.instances_by_name = ns.instances_by_name ∧ ns'.types = ns.types) ∧
    (∀ (ns : Namespace Obj) (ids : List Key) (o : Nat) (ns' : Namespace Obj),
      Namespace.release_all ns ids o = Except.ok ns' →
      ns'.instances_by_name = ns.instances_by_name ∧ ns'.types = ns.types) ∧
    (∀ (ns : Namespace Obj) (s : String) (obj : Obj) (k : Key) (o : Nat)
      (b : Bool) (ns' : Namespace Obj),
      dictLookup s ns.instances_by_name = some obj →
      Namespace.release ns k o = Except.ok (b, ns') →
      Namespace.contains ns' (Key.name s) = true ∧
      ns'.getitem (Key.name s) = Except.ok obj) := by
  refine ⟨?_, ?_, ?_⟩
  · intro ns k o b ns' h
    exact release_frame ns k o b ns' h
  · intro ns ids o ns' h
    exact release_all_frame ids ns o ns' h
  · intro ns s obj k o b ns' hname h
    have hfr := (release_frame ns k o b ns' h).1
    constructor
    · simp [Namespace.contains, dictContains, hfr, hname]
    · simp [Namespace.getitem, hfr, hname]

theorem release_preserves_name_table_witness :
    Namespace.contains postReleaseNs (Key.name "n") = true ∧
    postReleaseNs.getitem (Key.name "n") = Except.ok 0 :=
  (@release_preserves_name_table Nat).2.2 conflictNs "n" 0 (Key.id 1) 7 true
    postReleaseNs rfl rfl

/-- C3: for every received request, any exception raised while
handling it — an action outside {open, close, execute}, a missing
field, an unknown type, an unknown instance, or a failure inside the
invoked method, all surfacing as an error from the handler — is caught
at `Worker._dispatch` and converted into an `error`-typed response
carrying the formatted traceback; the response is the one sent, and
the dispatch returns `True` so the receive loop continues instead of
terminating the connection. -/
theorem dispatch_catches_all (wid : Nat) (call : CallResult) (st : WorkerState)
    (req : Request) :
    (Worker._dispatch wid call st req).2.2 = true ∧
    (∀ e, (Worker.handleAction wid call st req).2 = Except.error e →
      (Worker._dispatch wid call st req).2.1 =
        Response.mk "error" (PyVal.str (format_exc e))) := by
  cases h : Worker.handleAction wid call st req with
  | mk st' res =>
    cases res with
    | ok r =>
      refine ⟨?_, ?_⟩
      · simp [Worker._dispatch, h]
      · intro e he
        simp at he
    | error e' =>
      refine ⟨?_, ?_⟩
      · simp [Worker._dispatch, h]
      · intro e he
        simp at he
        subst he
        simp [Worker._dispatch, h]

theorem dispatch_catches_all_witness :
    (Worker._dispatch 0 (Except.error (Exc.valueError "unused")) emptyWS bogusReq).2.2 = true ∧
    (Worker._dispatch 0 (Except.error (Exc.valueError "unused")) emptyWS bogusReq).2.1 =
      Response.mk "error" (PyVal.str (format_exc (Exc.valueError "Invalid request action"))) :=
  ⟨(dispatch_catches_all 0 (Except.error (Exc.valueError "unused")) emptyWS bogusReq).1,
   (dispatch_catches_all 0 (Except.error (Exc.valueError "unused")) emptyWS bogusReq).2
     (Exc.valueError "Invalid request action") rfl⟩

/-- C5: evaluating the code at the failing input.  The registry binds
name `"obj"` to an existing instance (id 1, held by worker 9), and
worker 5 sends an open request with `instance` set to that name.  The
claim says the worker increments its reference count via `acquire` and
replies `reference` with the instance's id; instead, `acquire` raises
`KeyError` (`_ref_counts` is keyed only by int ids), the dispatch
boundary converts it into an `error` response, no reference count
changes and the acquisition set stays empty.  (Had `acquire` not
raised, the packed reply would carry the *name*, not the id.) -/
theorem open_by_name_keyerror :
    Worker._dispatch 5 (Except.error (Exc.valueError "unused")) namedWS openByNameReq =
      (namedWS,
        Response.mk "error" (PyVal.str (format_exc (Exc.keyError "ref_counts str key"))),
        true) := rfl

/-- C7: whenever decoding a framed unit raises, `Worker._receive`
replaces the encoder/decoder pair with fresh instances
(`_init_serdes`) and re-raises; the error propagates out of the
receive step — `dispatchFull` turns it into a `raised` outcome, never
an `error` response — so the loop ends and the worker's cleanup path
(socket close + `release_all`) runs. -/
theorem decode_error_resets_serdes :
    (∀ (decode : List Nat → DecodeStep) (sd : Serdes) (chunks : List (List Nat))
      (e : Exc) (sd' : Serdes),
      Worker._receive decode sd chunks = (sd', RecvResult.exc e) →
      sd' = Worker._init_serdes) ∧
    (∀ (wid : Nat) (decode : List Nat → DecodeStep) (call : CallResult) (sd : Serdes)
      (st : WorkerState) (chunks : List (List Nat)) (e : Exc) (sd' : Serdes),
      Worker._receive decode sd chunks = (sd', RecvResult.exc e) →
      Worker.dispatchFull wid decode call sd st chunks = (sd', st, StepOutcome.raised e)) ∧
    (∀ (wid : Nat) (decode : List Nat → DecodeStep) (inp : LoopInput)
      (rest : List LoopInput) (sd : Serdes) (st : WorkerState) (e : Exc) (sd' : Serdes),
      Worker._receive decode sd inp.chunks = (sd', RecvResult.exc e) →
      Worker.run wid decode (inp :: rest) sd st =
        some { socketClosed := true, preNs := st.ns, preIds := st.inst_ids,
               ns := Namespace.release_all st.ns st.inst_ids wid }) := by
  have hreset : ∀ (decode : List Nat → DecodeStep) (chunks : List (List Nat)) (sd : Serdes)
      (e : Exc) (sd' : Serdes),
      Worker._receive decode sd chunks = (sd', RecvResult.exc e) →
      sd' = Worker._init_serdes := by
    intro decode chunks
    induction chunks with
    | nil =>
      intro sd e sd' h
      rw [Worker._receive] at h
      cases h
    | cons c rest ih =>
      intro sd e sd' h
      rw [Worker._receive] at h
      by_cases hemp : c.isEmpty = true
      · rw [if_pos hemp] at h
        cases h
      · rw [if_neg hemp] at h
        simp only [] at h
        cases hdec : decode (sd.unpacker.buf ++ c) with
        | needMore =>
          rw [hdec] at h
          exact ih _ e sd' h
        | frame r rb =>
          rw [hdec] at h
          cases h
        | fail e' =>
          rw [hdec] at h
          injection h with h1 h2
          exact h1.symm
  refine ⟨fun decode sd chunks => hreset decode chunks sd, ?_, ?_⟩
  · intro wid decode call sd st chunks e sd' h
    simp [Worker.dispatchFull, h]
  · intro wid decode inp rest sd st e sd' h
    simp [Worker.run, Worker.runLoop, Worker.dispatchFull, h]

theorem decode_error_resets_serdes_witness :
    Worker.run 5 decodeFailFn [failInput] Worker._init_serdes emptyWS =
      some { socketClosed := true, preNs := emptyWS.ns, preIds := emptyWS.inst_ids,
             ns := Namespace.release_all emptyWS.ns emptyWS.inst_ids 5 } :=
  decode_error_resets_serdes.2.2 5 decodeFailFn failInput [] Worker._init_serdes emptyWS
    (Exc.valueError "bad frame") Worker._init_serdes rfl

/-- C4: for every execute request on an existing instance whose
invocation produces `ret` with Python identity `retId`: if `ret` is
representable as a plain serializable value (scalar, string, binary
blob, or a container built purely from such values, recursively), the
worker replies `value` with it and changes nothing; otherwise the
packer raises `TypeError`, and the worker mints `id(ret)`, adds the
result to the Namespace with itself as owner, records that id in its
acquisition set, and replies `reference` with that id. -/
theorem execute_value_vs_reference (wid : Nat) (st : WorkerState) (req : Request)
    (k : Key) (m : String) (ret : PyVal) (retId : Nat)
    (hinst : req.inst = some k) (hc : Namespace.contains st.ns k = true)
    (hm : req.method = some m) :
    (isPlain ret = true →
      Worker._action_execute wid (Except.ok (ret, retId)) st req =
        (st, Except.ok (Response.mk "value" ret))) ∧
    (isPlain ret = false →
      ∀ ns', Namespace.add st.ns ret retId wid Option.none = Except.ok ns' →
        Worker._action_execute wid (Except.ok (ret, retId)) st req =
          ({ ns := ns', inst_ids := pySetAdd st.inst_ids (Key.id retId) },
            Except.ok (Response.mk "reference" (PyVal.int (Int.ofNat retId))))) := by
  have hgi : ∃ o, Namespace.getitem st.ns k = Except.ok o := by
    cases k with
    | id n =>
      have hc' : dictContains n st.ns.instances = true := hc
      obtain ⟨v, hv⟩ := (dictContains_iff n st.ns.instances).mp hc'
      exact ⟨v, by simp [Namespace.getitem, hv]⟩
    | name s =>
      have hc' : dictContains s st.ns.instances_by_name = true := hc
      obtain ⟨v, hv⟩ := (dictContains_iff s st.ns.instances_by_name).mp hc'
      exact ⟨v, by simp [Namespace.getitem, hv]⟩
  obtain ⟨o, ho⟩ := hgi
  constructor
  · intro hp
    simp [Worker._action_execute, hinst, hc, hm, ho, pack, hp]
  · intro hp ns' hadd
    simp [Worker._action_execute, hinst, hc, hm, ho, pack, hp, hadd, isPlain]

theorem execute_value_vs_reference_witness :
    (Worker._action_execute 5 (Except.ok (PyVal.int 3, 99)) closeWS execReq =
      (closeWS, Except.ok (Response.mk "value" (PyVal.int 3)))) ∧
    (Worker._action_execute 5 (Except.ok (PyVal.obj 42, 99)) closeWS execReq =
      ({ ns := nsAfterAdd99, inst_ids := pySetAdd closeWS.inst_ids (Key.id 99) },
        Except.ok (Response.mk "reference" (PyVal.int (Int.ofNat 99))))) :=
  ⟨(execute_value_vs_reference 5 closeWS execReq (Key.id 1) "m" (PyVal.int 3) 99
      rfl rfl rfl).1 rfl,
   (execute_value_vs_reference 5 closeWS execReq (Key.id 1) "m" (PyVal.obj 42) 99
      rfl rfl rfl).2 rfl nsAfterAdd99 rfl⟩

/-- C6: for a close request, (1) if the target key is absent from the
Namespace the request fails with the `KeyError` ("NotFound") converted
to an `error` response at the dispatch boundary; (2) if present and
held by this worker, the worker releases its own hold, the id leaves
its acquisition set exactly when the hold reaches zero
(`c - 1 < 1`), and the reply is a `value`-typed response carrying
null; (3) after a sole-holding worker (single entry, count 1) closes
the instance, a subsequent execute request on that id fails with the
same `KeyError` ("NotFound"). -/
theorem close_semantics (wid : Nat) (call : CallResult) (st : WorkerState)
    (req : Request) (k : Key)
    (ha : req.action = some "close") (hi : req.inst = some k) :
    (Namespace.contains st.ns k = false →
      Worker._dispatch wid call st req =
        (st, Response.mk "error"
          (PyVal.str (format_exc (Exc.keyError "Instance does not exist"))), true)) ∧
    (∀ n rc c, k = Key.id n →
      dictContains n st.ns.instances = true →
      dictLookup n st.ns.ref_counts = some rc →
      dictLookup wid rc = some c →
      k ∈ st.inst_ids →
      ∃ st', Worker._dispatch wid call st req =
          (st', Response.mk "value" PyVal.none, true) ∧
        (k ∈ st'.inst_ids ↔ ¬ c - 1 < 1)) ∧
    (∀ n, k = Key.id n →
      dictContains n st.ns.instances = true →
      dictLookup n st.ns.ref_counts = some [(wid, 1)] →
      k ∈ st.inst_ids →
      ∀ (call2 : CallResult) (req2 : Request), req2.inst = some k →
        (Worker._action_execute wid call2 (Worker._dispatch wid call st req).1 req2).2 =
          Except.error (Exc.keyError "Instance does not exist")) := by
  have hclose : Worker.handleAction wid call st req = Worker._action_close wid st req := by
    simp [Worker.handleAction, ha]
  refine ⟨?_, ?_, ?_⟩
  · intro hcf
    have h1 : Worker._action_close wid st req =
        (st, Except.error (Exc.keyError "Instance does not exist")) := by
      simp only [Worker._action_close, hi]
      rw [if_neg (by simp [hcf])]
    simp [Worker._dispatch, hclose, h1]
  · intro n rc c hk hci hrc hw hmem
    subst hk
    have hcl : Namespace.contains st.ns (Key.id n) = true := hci
    have hrel := release_cases st.ns n wid rc c hrc hw
    by_cases hz : c - 1 < 1
    · by_cases hemp : (dictErase wid rc).isEmpty = true
      · have h1 : Worker._action_close wid st req =
            (WorkerState.mk
              (Namespace.mk st.ns.types (dictErase n st.ns.instances)
                st.ns.instances_by_name (dictErase n st.ns.ref_counts))
              (st.inst_ids.filter (fun x => decide (x ≠ Key.id n))),
              Except.ok (Response.mk "value" PyVal.none)) := by
          simp only [Worker._action_close, hi]
          rw [if_pos hcl, hrel, if_pos hz, if_pos hemp]
          simp [pySetRemove, hmem, pack, isPlain]
        refine ⟨WorkerState.mk
            (Namespace.mk st.ns.types (dictErase n st.ns.instances)
              st.ns.instances_by_name (dictErase n st.ns.ref_counts))
            (st.inst_ids.filter (fun x => decide (x ≠ Key.id n))), ?_, ?_⟩
        · simp [Worker._dispatch, hclose, h1]
        · simp [List.mem_filter, hz]
      · have h1 : Worker._action_close wid st req =
            (WorkerState.mk
              (Namespace.mk st.ns.types st.ns.instances st.ns.instances_by_name
                (dictInsert n (dictErase wid rc) st.ns.ref_counts))
              (st.inst_ids.filter (fun x => decide (x ≠ Key.id n))),
              Except.ok (Response.mk "value" PyVal.none)) := by
          simp only [Worker._action_close, hi]
          rw [if_pos hcl, hrel, if_pos hz, if_neg hemp]
          simp [pySetRemove, hmem, pack, isPlain]
        refine ⟨WorkerState.mk
            (Namespace.mk st.ns.types st.ns.instances st.ns.instances_by_name
              (dictInsert n (dictErase wid rc) st.ns.ref_counts))
            (st.inst_ids.filter (fun x => decide (x ≠ Key.id n))), ?_, ?_⟩
        · simp [Worker._dispatch, hclose, h1]
        · simp [List.mem_filter, hz]
    · have h1 : Worker._action_close wid st req =
          (WorkerState.mk
            (Namespace.mk st.ns.types st.ns.instances st.ns.instances_by_name
              (dictInsert n (dictInsert wid (c - 1) rc) st.ns.ref_counts))
            st.inst_ids,
            Except.ok (Response.mk "value" PyVal.none)) := by
        simp only [Worker._action_close, hi]
        rw [if_pos hcl, hrel, if_neg hz]
        simp [pack, isPlain]
      refine ⟨WorkerState.mk
          (Namespace.mk st.ns.types st.ns.instances st.ns.instances_by_name
            (dictInsert n (dictInsert wid (c - 1) rc) st.ns.ref_counts))
          st.inst_ids, ?_, ?_⟩
      · simp [Worker._dispatch, hclose, h1]
      · simp [hz, hmem]
  · intro n hk hci hrc hmem call2 req2 hi2
    subst hk
    have hcl : Namespace.contains st.ns (Key.id n) = true := hci
    have hw1 : dictLookup wid [(wid, (1 : Int))] = some 1 := by simp [dictLookup]
    have hrel := release_cases st.ns n wid [(wid, 1)] 1 hrc hw1
    have hz : (1 : Int) - 1 < 1 := by norm_num
    have hemp : (dictErase wid [(wid, (1 : Int))]).isEmpty = true := by
      simp [dictErase]
    have h1 : Worker._action_close wid st req =
        (WorkerState.mk
          (Namespace.mk st.ns.types (dictErase n st.ns.instances)
            st.ns.instances_by_name (dictErase n st.ns.ref_counts))
          (st.inst_ids.filter (fun x => decide (x ≠ Key.id n))),
          Except.ok (Response.mk "value" PyVal.none)) := by
      simp only [Worker._action_close, hi]
      rw [if_pos hcl, hrel, if_pos hz, if_pos hemp]
      simp [pySetRemove, hmem, pack, isPlain]
    have hd1 : (Worker._dispatch wid call st req).1 =
        WorkerState.mk
          (Namespace.mk st.ns.types (dictErase n st.ns.instances)
            st.ns.instances_by_name (dictErase n st.ns.ref_counts))
          (st.inst_ids.filter (fun x => decide (x ≠ Key.id n))) := by
      simp [Worker._dispatch, hclose, h1]
    rw [hd1]
    have hcf : Namespace.contains
        (Namespace.mk st.ns.types (dictErase n st.ns.instances)
          st.ns.instances_by_name (dictErase n st.ns.ref_counts)) (Key.id n) = false := by
      simp [Namespace.contains, dictContains, dictLookup_erase_self]
    simp [Worker._action_execute, hi2, hcf]

theorem close_semantics_witness :
    (Worker._action_execute 5 (Except.error (Exc.valueError "unused"))
        (Worker._dispatch 5 (Except.error (Exc.valueError "unused")) closeWS closeReqC).1
        execReq).2 =
      Except.error (Exc.keyError "Instance does not exist") :=
  (close_semantics 5 (Except.error (Exc.valueError "unused")) closeWS closeReqC (Key.id 1)
      rfl rfl).2.2 1 rfl rfl rfl (by decide) (Except.error (Exc.valueError "unused"))
    execReq rfl

theorem bumpOwner_pos (rc : List (Nat × Int)) (o : Nat)
    (hpos : ∀ p ∈ rc, 1 ≤ p.2) : ∀ p ∈ Namespace.bumpOwner rc o, 1 ≤ p.2 := by
  rw [Namespace.bumpOwner]
  cases hl : dictLookup o rc with
  | none =>
    intro p hp
    rw [dictInsert] at hp
    rcases List.mem_cons.mp hp with h | h
    · rw [h]
    · exact hpos p (mem_of_mem_dictErase o rc h)
  | some c =>
    intro p hp
    rw [dictInsert] at hp
    rcases List.mem_cons.mp hp with h | h
    · have hc : 1 ≤ c := hpos (o, c) (mem_of_dictLookup hl)
      rw [h]
      omega
    · exact hpos p (mem_of_mem_dictErase o rc h)

theorem bumpOwner_contains_self (rc : List (Nat × Int)) (o : Nat) :
    dictContains o (Namespace.bumpOwner rc o) = true := by
  rw [Namespace.bumpOwner]
  cases dictLookup o rc with
  | none => simp [dictContains]
  | some c => simp [dictContains]

theorem add_none_ok_effect {Obj : Type} (ns : Namespace Obj) (obj : Obj) (iid wid : Nat)
    (ns' : Namespace Obj) (h : Namespace.add ns obj iid wid Option.none = Except.ok ns')
    (hpos : ∀ n rc, dictLookup n ns.ref_counts = some rc → ∀ p ∈ rc, 1 ≤ p.2) :
    (∀ n rc, dictLookup n ns'.ref_counts = some rc → ∀ p ∈ rc, 1 ≤ p.2) ∧
    dictContains iid ns'.instances = true ∧
    (∃ rc', dictLookup iid ns'.ref_counts = some rc' ∧ dictContains wid rc' = true) ∧
    (∀ m, m ≠ iid → dictLookup m ns'.ref_counts = dictLookup m ns.ref_counts ∧
      dictLookup m ns'.instances = dictLookup m ns.instances) := by
  by_cases hc : dictContains iid ns.instances = true
  · cases hrc : dictLookup iid ns.ref_counts with
    | none => simp [Namespace.add, hc, hrc] at h
    | some rc =>
      simp [Namespace.add, hc, hrc] at h
      subst h
      refine ⟨?_, hc, ?_, ?_⟩
      · intro n rc0 hl
        by_cases hn : n = iid
        · subst hn
          rw [dictLookup_insert_self] at hl
          injection hl with hl
          rw [← hl]
          exact bumpOwner_pos rc wid (hpos n rc hrc)
        · rw [dictLookup_insert_ne iid n _ _ (fun hceq => hn hceq.symm)] at hl
          exact hpos n rc0 hl
      · exact ⟨Namespace.bumpOwner rc wid, dictLookup_insert_self iid _ _,
          bumpOwner_contains_self rc wid⟩
      · intro m hm
        exact ⟨dictLookup_insert_ne iid m _ _ (fun hceq => hm hceq.symm), rfl⟩
  · simp [Namespace.add, hc] at h
    subst h
    refine ⟨?_, ?_, ?_, ?_⟩
    · intro n rc0 hl
      by_cases hn : n = iid
      · subst hn
        rw [dictLookup_insert_self] at hl
        injection hl with hl
        rw [← hl]
        intro p hp
        rcases List.mem_singleton.mp hp with h
        rw [h]
      · rw [dictLookup_insert_ne iid n _ _ (fun hceq => hn hceq.symm)] at hl
        exact hpos n rc0 hl
    · simp [dictContains]
    · exact ⟨[(wid, 1)], dictLookup_insert_self iid _ _, by simp [dictContains, dictLookup]⟩
    · intro m hm
      exact ⟨dictLookup_insert_ne iid m _ _ (fun hceq => hm hceq.symm),
        dictLookup_insert_ne iid m _ _ (fun hceq => hm hceq.symm)⟩

theorem acquire_ok_effect {Obj : Type} (ns : Namespace Obj) (k : Key) (wid : Nat)
    (ns' : Namespace Obj) (h : Namespace.acquire ns k wid = Except.ok ns')
    (hpos : ∀ n rc, dictLookup n ns.ref_counts = some rc → ∀ p ∈ rc, 1 ≤ p.2) :
    ∃ n, k = Key.id n ∧
      (∀ n' rc, dictLookup n' ns'.ref_counts = some rc → ∀ p ∈ rc, 1 ≤ p.2) ∧
      ns'.instances = ns.instances ∧
      (∃ rc', dictLookup n ns'.ref_counts = some rc' ∧ dictContains wid rc' = true) ∧
      (∀ m, m ≠ n → dictLookup m ns'.ref_counts = dictLookup m ns.ref_counts) := by
  cases k with
  | name s => simp [Namespace.acquire] at h
  | id n =>
    cases hrc : dictLookup n ns.ref_counts with
    | none => simp [Namespace.acquire, hrc] at h
    | some rc =>
      simp [Namespace.acquire, hrc] at h
      subst h
      refine ⟨n, rfl, ?_, rfl, ?_, ?_⟩
      · intro n' rc0 hl
        by_cases hn : n' = n
        · subst hn
          rw [dictLookup_insert_self] at hl
          injection hl with hl
          rw [← hl]
          exact bumpOwner_pos rc wid (hpos n' rc hrc)
        · rw [dictLookup_insert_ne n n' _ _ (fun hceq => hn hceq.symm)] at hl
          exact hpos n' rc0 hl
      · exact ⟨Namespace.bumpOwner rc wid, dictLookup_insert_self n _ _,
          bumpOwner_contains_self rc wid⟩
      · intro m hm
        exact dictLookup_insert_ne n m _ _ (fun hceq => hm hceq.symm)

theorem release_ok_effect {Obj : Type} (ns : Namespace Obj) (k : Key) (wid : Nat)
    (b : Bool) (ns' : Namespace Obj)
    (h : Namespace.release ns k wid = Except.ok (b, ns'))
    (hpos : ∀ n rc, dictLookup n ns.ref_counts = some rc → ∀ p ∈ rc, 1 ≤ p.2) :
    ∃ n, k = Key.id n ∧
      (∀ n' rc, dictLookup n' ns'.ref_counts = some rc → ∀ p ∈ rc, 1 ≤ p.2) ∧
      (∀ m, m ≠ n → dictLookup m ns'.ref_counts = dictLookup m ns.ref_counts ∧
        dictLookup m ns'.instances = dictLookup m ns.instances) ∧
      (b = false → dictLookup n ns'.instances = dictLookup n ns.instances ∧
        ∃ rc', dictLookup n ns'.ref_counts = some rc' ∧ dictContains wid rc' = true) := by
  cases k with
  | name s => simp [Namespace.release] at h
  | id n =>
    refine ⟨n, rfl, ?_⟩
    cases hrc : dictLookup n ns.ref_counts with
    | none => simp [Namespace.release, hrc] at h
    | some rc =>
      cases hw : dictLookup wid rc with
      | none => simp [Namespace.release, hrc, hw] at h
      | some c =>
        rw [release_cases ns n wid rc c hrc hw] at h
        by_cases hz : c - 1 < 1
        · rw [if_pos hz] at h
          by_cases hemp : (dictErase wid rc).isEmpty = true
          · rw [if_pos hemp] at h
            injection h with h
            injection h with hb hns
            subst hns
            refine ⟨?_, ?_, ?_⟩
            · intro n' rc0 hl
              by_cases hn : n' = n
              · subst hn
                rw [dictLookup_erase_self] at hl
                cases hl
              · rw [dictLookup_erase_ne n n' _ (fun hceq => hn hceq.symm)] at hl
                exact hpos n' rc0 hl
            · intro m hm
              exact ⟨dictLookup_erase_ne n m _ (fun hceq => hm hceq.symm),
                dictLookup_erase_ne n m _ (fun hceq => hm hceq.symm)⟩
            · intro hbf
              rw [← hb] at hbf
              cases hbf
          · rw [if_neg hemp] at h
            injection h with h
            injection h with hb hns
            subst hns
            refine ⟨?_, ?_, ?_⟩
            · intro n' rc0 hl
              by_cases hn : n' = n
              · subst hn
                rw [dictLookup_insert_self] at hl
                injection hl with hl
                rw [← hl]
                intro p hp
                exact hpos n' rc hrc p (mem_of_mem_dictErase wid rc hp)
              · rw [dictLookup_insert_ne n n' _ _ (fun hceq => hn hceq.symm)] at hl
                exact hpos n' rc0 hl
            · intro m hm
              exact ⟨dictLookup_insert_ne n m _ _ (fun hceq => hm hceq.symm), rfl⟩
            · intro hbf
              rw [← hb] at hbf
              cases hbf
        · rw [if_neg hz] at h
          injection h with h
          injection h with hb hns
          subst hns
          refine ⟨?_, ?_, ?_⟩
          · intro n' rc0 hl
            by_cases hn : n' = n
            · subst hn
              rw [dictLookup_insert_self] at hl
              injection hl with hl
              rw [← hl]
              intro p hp
              rw [dictInsert] at hp
              rcases List.mem_cons.mp hp with hmm | hmm
              · rw [hmm]
                simp only []
                omega
              · exact hpos n' rc hrc p (mem_of_mem_dictErase wid rc hmm)
            · rw [dictLookup_insert_ne n n' _ _ (fun hceq => hn hceq.symm)] at hl
              exact hpos n' rc0 hl
          · intro m hm
            exact ⟨dictLookup_insert_ne n m _ _ (fun hceq => hm hceq.symm), rfl⟩
          · intro _
            exact ⟨rfl, dictInsert wid (c - 1) rc, dictLookup_insert_self n _ _,
              by simp [dictContains]⟩

theorem release_all_preserves_other {Obj : Type} (ids : List Key) :
    ∀ (ns : Namespace Obj) (o : Nat) (ns' : Namespace Obj) (n : Nat),
      Namespace.release_all ns ids o = Except.ok ns' → Key.id n ∉ ids →
      dictLookup n ns'.ref_counts = dictLookup n ns.ref_counts ∧
      dictLookup n ns'.instances = dictLookup n ns.instances := by
  induction ids with
  | nil =>
    intro ns o ns' n h _
    rw [Namespace.release_all] at h
    injection h with h
    subst h
    exact ⟨rfl, rfl⟩
  | cons k rest ih =>
    intro ns o ns' n h hmem
    cases k with
    | name s => simp [Namespace.release_all] at h
    | id m =>
      have hnm : n ≠ m := by
        intro hc
        exact hmem (by rw [hc]; exact List.mem_cons_self _ _)
      have hrest : Key.id n ∉ rest := fun hc => hmem (List.mem_cons_of_mem _ hc)
      cases hrc : dictLookup m ns.ref_counts with
      | none => simp [Namespace.release_all, hrc] at h
      | some rc =>
        cases ho : dictLookup o rc with
        | none => simp [Namespace.release_all, hrc, ho] at h
        | some cnt =>
          rw [release_all_cons ns m o rest rc cnt hrc ho] at h
          by_cases hemp : (dictErase o rc).isEmpty = true
          · rw [if_pos hemp] at h
            have hrec := ih (Namespace.mk ns.types (dictErase m ns.instances)
              ns.instances_by_name (dictErase m ns.ref_counts)) o ns' n h hrest
            rw [hrec.1, hrec.2]
            exact ⟨dictLookup_erase_ne m n _ (Ne.symm hnm),
              dictLookup_erase_ne m n _ (Ne.symm hnm)⟩
          · rw [if_neg hemp] at h
            have hrec := ih (Namespace.mk ns.types ns.instances ns.instances_by_name
              (dictInsert m (dictErase o rc) ns.ref_counts)) o ns' n h hrest
            rw [hrec.1, hrec.2]
            exact ⟨dictLookup_insert_ne m n _ _ (Ne.symm hnm), rfl⟩

theorem release_all_effect_step {Obj : Type} (ns ns1 : Namespace Obj) (n o : Nat)
    (rest : List Key) (rc : List (Nat × Int))
    (hrc : dictLookup n ns.ref_counts = some rc)
    (hstep : Namespace.release_all ns (Key.id n :: rest) o =
      Namespace.release_all ns1 rest o)
    (hrc1 : ∀ m, m ≠ n → dictLookup m ns1.ref_counts = dictLookup m ns.ref_counts)
    (hin1 : ∀ m, m ≠ n → dictLookup m ns1.instances = dictLookup m ns.instances)
    (hcase : ((dictErase o rc).isEmpty = true ∧
        dictLookup n ns1.ref_counts = Option.none ∧
        dictLookup n ns1.instances = Option.none) ∨
      ((dictErase o rc).isEmpty = false ∧
        dictLookup n ns1.ref_counts = some (dictErase o rc) ∧
        dictLookup n ns1.instances = dictLookup n ns.instances))
    (hnotin : Key.id n ∉ rest) (hndrest : rest.Nodup)
    (hhold : ∀ k ∈ rest, ownerHolds ns k o = true)
    (hpres : ∀ k ∈ rest, Namespace.contains ns k = true)
    (hpresn : Namespace.contains ns (Key.id n) = true)
    (ih : ∀ (ns0 : Namespace Obj), rest.Nodup →
      (∀ k ∈ rest, ownerHolds ns0 k o = true) →
      (∀ k ∈ rest, Namespace.contains ns0 k = true) →
      ∃ ns', Namespace.release_all ns0 rest o = Except.ok ns' ∧
        ∀ k ∈ rest, ownerHolds ns' k o = false ∧
          Namespace.contains ns' k = otherOwnerHolds ns0 k o) :
    ∃ ns', Namespace.release_all ns (Key.id n :: rest) o = Except.ok ns' ∧
      ∀ k ∈ Key.id n :: rest, ownerHolds ns' k o = false ∧
        Namespace.contains ns' k = otherOwnerHolds ns k o := by
  have hidOf : ∀ k ∈ rest, ∃ m, k = Key.id m ∧ m ≠ n := by
    intro k hk
    cases k with
    | name s =>
      have := hhold (Key.name s) hk
      rw [ownerHolds] at this
      cases this
    | id m =>
      refine ⟨m, rfl, ?_⟩
      intro hc
      exact hnotin (by rw [← hc]; exact hk)
  have hhold1 : ∀ k ∈ rest, ownerHolds ns1 k o = true := by
    intro k hk
    obtain ⟨m, hkm, hm⟩ := hidOf k hk
    subst hkm
    rw [ownerHolds, hrc1 m hm, ← ownerHolds]
    exact hhold _ hk
  have hpres1 : ∀ k ∈ rest, Namespace.contains ns1 k = true := by
    intro k hk
    obtain ⟨m, hkm, hm⟩ := hidOf k hk
    subst hkm
    rw [Namespace.contains, dictContains, hin1 m hm, ← dictContains, ← Namespace.contains]
    exact hpres _ hk
  obtain ⟨ns', hok, hprops⟩ := ih ns1 hndrest hhold1 hpres1
  refine ⟨ns', by rw [hstep]; exact hok, ?_⟩
  intro k hk
  rcases List.mem_cons.mp hk with hkn | hkr
  · subst hkn
    have hpo := release_all_preserves_other rest ns1 o ns' n hok hnotin
    rcases hcase with ⟨hemp, hrcn, hinn⟩ | ⟨hemp, hrcn, hinn⟩
    · constructor
      · rw [ownerHolds, hpo.1, hrcn]
      · rw [Namespace.contains, dictContains, hpo.2, hinn]
        simp [otherOwnerHolds, hrc, hemp]
    · constructor
      · rw [ownerHolds, hpo.1, hrcn]
        simp [dictContains, dictLookup_erase_self]
      · rw [Namespace.contains, dictContains, hpo.2, hinn]
        simp only [otherOwnerHolds, hrc, hemp, Bool.not_false]
        exact hpresn
  · obtain ⟨m, hkm, hm⟩ := hidOf k hkr
    have hpk := hprops k hkr
    refine ⟨hpk.1, ?_⟩
    rw [hpk.2]
    subst hkm
    rw [otherOwnerHolds, hrc1 m hm, ← otherOwnerHolds]

theorem release_all_effect {Obj : Type} (ids : List Key) :
    ∀ (ns : Namespace Obj) (o : Nat),
      ids.Nodup →
      (∀ k ∈ ids, ownerHolds ns k o = true) →
      (∀ k ∈ ids, Namespace.contains ns k = true) →
      ∃ ns', Namespace.release_all ns ids o = Except.ok ns' ∧
        ∀ k ∈ ids, ownerHolds ns' k o = false ∧
          Namespace.contains ns' k = otherOwnerHolds ns k o := by
  induction ids with
  | nil =>
    intro ns o _ _ _
    refine ⟨ns, by rw [Namespace.release_all], ?_⟩
    intro k hk
    cases hk
  | cons k rest ih =>
    intro ns o hnd hhold hpres
    have hk0 := hhold k (List.mem_cons_self k rest)
    cases k with
    | name s =>
      rw [ownerHolds] at hk0
      cases hk0
    | id n =>
      rw [List.nodup_cons] at hnd
      cases hrc : dictLookup n ns.ref_counts with
      | none =>
        rw [ownerHolds, hrc] at hk0
        cases hk0
      | some rc =>
        have hoc : dictContains o rc = true := by
          rw [ownerHolds, hrc] at hk0
          exact hk0
        obtain ⟨cnt, ho⟩ := (dictContains_iff o rc).mp hoc
        have hholdr : ∀ k ∈ rest, ownerHolds ns k o = true :=
          fun k hk => hhold k (List.mem_cons_of_mem _ hk)
        have hpresr : ∀ k ∈ rest, Namespace.contains ns k = true :=
          fun k hk => hpres k (List.mem_cons_of_mem _ hk)
        have hpresn : Namespace.contains ns (Key.id n) = true :=
          hpres _ (List.mem_cons_self _ _)
        by_cases hemp : (dictErase o rc).isEmpty = true
        · exact release_all_effect_step ns
            (Namespace.mk ns.types (dictErase n ns.instances) ns.instances_by_name
              (dictErase n ns.ref_counts)) n o rest rc hrc
            (by rw [release_all_cons ns n o rest rc cnt hrc ho, if_pos hemp])
            (fun m hm => dictLookup_erase_ne n m _ (Ne.symm hm))
            (fun m hm => dictLookup_erase_ne n m _ (Ne.symm hm))
            (Or.inl ⟨hemp, dictLookup_erase_self n _, dictLookup_erase_self n _⟩)
            hnd.1 hnd.2 hholdr hpresr hpresn (fun ns0 => ih ns0 o)
        · have hempf : (dictErase o rc).isEmpty = false := by
            cases hev : (dictErase o rc).isEmpty with
            | false => rfl
            | true => exact absurd hev hemp
          exact release_all_effect_step ns
            (Namespace.mk ns.types ns.instances ns.instances_by_name
              (dictInsert n (dictErase o rc) ns.ref_counts)) n o rest rc hrc
            (by rw [release_all_cons ns n o rest rc cnt hrc ho, if_neg hemp])
            (fun m hm => dictLookup_insert_ne n m _ _ (Ne.symm hm))
            (fun m hm => rfl)
            (Or.inr ⟨hempf, dictLookup_insert_self n _ _, rfl⟩)
            hnd.1 hnd.2 hholdr hpresr hpresn (fun ns0 => ih ns0 o)

/-- C2: whenever the worker's receive loop exits — for any reason, be
it orderly disconnect or an escaping (transport/decode) error — the
`finally` has closed the socket and then, under the Namespace lock,
run `release_all` on the worker's full acquisition set against the
Namespace as it stood at loop exit (first conjunct).  `release_all`
removes this worker's owner entry for every id in the set; afterwards
each such instance is still present in the Namespace exactly when
another owner additionally holds it, and is removed from storage
exactly when its reference table thereby became empty (second
conjunct). -/
theorem worker_disconnect_cleanup :
    (∀ (wid : Nat) (decode : List Nat → DecodeStep) (inputs : List LoopInput)
      (sd : Serdes) (st : WorkerState) (r : RunResult),
      Worker.run wid decode inputs sd st = some r →
      r.socketClosed = true ∧ r.ns = Namespace.release_all r.preNs r.preIds wid) ∧
    (∀ (ns : Namespace PyVal) (ids : List Key) (o : Nat),
      ids.Nodup →
      (∀ k ∈ ids, ownerHolds ns k o = true) →
      (∀ k ∈ ids, Namespace.contains ns k = true) →
      ∃ ns', Namespace.release_all ns ids o = Except.ok ns' ∧
        ∀ k ∈ ids, ownerHolds ns' k o = false ∧
          Namespace.contains ns' k = otherOwnerHolds ns k o) := by
  constructor
  · intro wid decode inputs sd st r h
    rcases hL : Worker.runLoop wid decode inputs sd st with ⟨sd', st', ex⟩
    cases ex with
    | stuck =>
      simp [Worker.run, hL] at h
    | disconnected =>
      simp only [Worker.run, hL] at h
      injection h with h
      subst h
      exact ⟨rfl, rfl⟩
    | raised e =>
      simp only [Worker.run, hL] at h
      injection h with h
      subst h
      exact ⟨rfl, rfl⟩
  · intro ns ids o hnd hhold hpres
    exact release_all_effect ids ns o hnd hhold hpres

theorem worker_disconnect_cleanup_witness :
    (witRun.socketClosed = true ∧
      witRun.ns = Namespace.release_all witRun.preNs witRun.preIds 3) ∧
    (∃ ns', Namespace.release_all cleanup2Ns [Key.id 1, Key.id 2] 7 = Except.ok ns' ∧
      ∀ k ∈ [Key.id 1, Key.id 2], ownerHolds ns' k 7 = false ∧
        Namespace.contains ns' k = otherOwnerHolds cleanup2Ns k 7) :=
  ⟨worker_disconnect_cleanup.1 3 (fun _ => DecodeStep.needMore) [eofInput]
      Worker._init_serdes emptyWS witRun rfl,
   worker_disconnect_cleanup.2 cleanup2Ns [Key.id 1, Key.id 2] 7 (by decide)
      (by decide) (by decide)⟩

theorem isPlain_keyToVal (k : Key) : isPlain (keyToVal k) = true := by
  cases k <;> rfl

theorem winv_insert (wid iid : Nat) (st : WorkerState) (ns' : Namespace PyVal)
    (hnd : st.inst_ids.Nodup)
    (hpos' : ∀ n rc, dictLookup n ns'.ref_counts = some rc → ∀ p ∈ rc, 1 ≤ p.2)
    (hcont : dictContains iid ns'.instances = true)
    (hentry : ∃ rc', dictLookup iid ns'.ref_counts = some rc' ∧ dictContains wid rc' = true)
    (hothers : ∀ m, m ≠ iid → dictLookup m ns'.ref_counts = dictLookup m st.ns.ref_counts ∧
      dictLookup m ns'.instances = dictLookup m st.ns.instances)
    (hids : ∀ k ∈ st.inst_ids, ∃ n rc, k = Key.id n ∧
      dictContains n st.ns.instances = true ∧
      dictLookup n st.ns.ref_counts = some rc ∧ dictContains wid rc = true) :
    WInv wid (WorkerState.mk ns' (pySetAdd st.inst_ids (Key.id iid))) := by
  refine ⟨?_, hpos', ?_⟩
  · rw [pySetAdd]
    by_cases hmem : Key.id iid ∈ st.inst_ids
    · rw [if_pos hmem]
      exact hnd
    · rw [if_neg hmem]
      exact List.nodup_cons.mpr ⟨hmem, hnd⟩
  · intro k hk
    have hk' : k = Key.id iid ∨ k ∈ st.inst_ids := by
      rw [pySetAdd] at hk
      by_cases hmem : Key.id iid ∈ st.inst_ids
      · rw [if_pos hmem] at hk
        exact Or.inr hk
      · rw [if_neg hmem] at hk
        rcases List.mem_cons.mp hk with h | h
        · exact Or.inl h
        · exact Or.inr h
    rcases hk' with hk' | hk'
    · subst hk'
      obtain ⟨rc', hl, hcw⟩ := hentry
      exact ⟨iid, rc', rfl, hcont, hl, hcw⟩
    · obtain ⟨m, rc, hkm, hcm, hlm, hwm⟩ := hids k hk'
      subst hkm
      by_cases hm : m = iid
      · subst hm
        obtain ⟨rc', hl, hcw⟩ := hentry
        exact ⟨m, rc', rfl, hcont, hl, hcw⟩
      · obtain ⟨hr, hin⟩ := hothers m hm
        refine ⟨m, rc, rfl, ?_, ?_, hwm⟩
        · rw [dictContains, hin, ← dictContains]
          exact hcm
        · rw [hr]
          exact hlm

theorem open_preserves_winv (wid : Nat) (call : CallResult) (st : WorkerState)
    (req : Request) (hI : WInv wid st) :
    WInv wid (Worker._action_open wid call st req).1 := by
  obtain ⟨hnd, hpos, hids⟩ := hI
  cases hp : req.provider with
  | some provider =>
    by_cases ht : dictContains provider st.ns.types = true
    · cases call with
      | error e =>
        have hres : (Worker._action_open wid (Except.error e) st req).1 = st := by
          simp [Worker._action_open, hp, ht]
        rw [hres]
        exact ⟨hnd, hpos, hids⟩
      | ok pr =>
        rcases pr with ⟨obj, objId⟩
        cases hadd : Namespace.add st.ns obj objId wid Option.none with
        | error e =>
          have hres : (Worker._action_open wid (Except.ok (obj, objId)) st req).1 = st := by
            simp [Worker._action_open, hp, ht, pack, isPlain, hadd]
          rw [hres]
          exact ⟨hnd, hpos, hids⟩
        | ok ns' =>
          have heff := add_none_ok_effect st.ns obj objId wid ns' hadd hpos
          have hres : (Worker._action_open wid (Except.ok (obj, objId)) st req).1 =
              WorkerState.mk ns' (pySetAdd st.inst_ids (Key.id objId)) := by
            simp [Worker._action_open, hp, ht, pack, isPlain, hadd]
          rw [hres]
          exact winv_insert wid objId st ns' hnd heff.1 heff.2.1 heff.2.2.1 heff.2.2.2 hids
    · have hres : (Worker._action_open wid call st req).1 = st := by
        simp [Worker._action_open, hp, ht]
      rw [hres]
      exact ⟨hnd, hpos, hids⟩
  | none =>
    cases hi : req.inst with
    | none =>
      have hres : (Worker._action_open wid call st req).1 = st := by
        simp [Worker._action_open, hp, hi]
      rw [hres]
      exact ⟨hnd, hpos, hids⟩
    | some k =>
      by_cases hc : Namespace.contains st.ns k = true
      · cases hacq : Namespace.acquire st.ns k wid with
        | error e =>
          have hres : (Worker._action_open wid call st req).1 = st := by
            simp [Worker._action_open, hp, hi, hc, pack, isPlain_keyToVal, hacq]
          rw [hres]
          exact ⟨hnd, hpos, hids⟩
        | ok ns' =>
          obtain ⟨n, hkn, hpos', hinst, hentry, hothers⟩ :=
            acquire_ok_effect st.ns k wid ns' hacq hpos
          subst hkn
          have hres : (Worker._action_open wid call st req).1 =
              WorkerState.mk ns' (pySetAdd st.inst_ids (Key.id n)) := by
            simp [Worker._action_open, hp, hi, hc, pack, isPlain_keyToVal, hacq]
          rw [hres]
          refine winv_insert wid n st ns' hnd hpos' ?_ hentry ?_ hids
          · rw [dictContains, hinst, ← dictContains]
            exact hc
          · intro m hm
            exact ⟨hothers m hm, by rw [hinst]⟩
      · have hres : (Worker._action_open wid call st req).1 = st := by
          simp [Worker._action_open, hp, hi, hc]
        rw [hres]
        exact ⟨hnd, hpos, hids⟩

theorem close_preserves_winv (wid : Nat) (st : WorkerState) (req : Request)
    (hI : WInv wid st) : WInv wid (Worker._action_close wid st req).1 := by
  obtain ⟨hnd, hpos, hids⟩ := hI
  cases hi : req.inst with
  | none =>
    have hres : (Worker._action_close wid st req).1 = st := by
      simp [Worker._action_close, hi]
    rw [hres]
    exact ⟨hnd, hpos, hids⟩
  | some k =>
    by_cases hc : Namespace.contains st.ns k = true
    · cases hrel : Namespace.release st.ns k wid with
      | error e =>
        have hres : (Worker._action_close wid st req).1 = st := by
          simp [Worker._action_close, hi, hc, hrel]
        rw [hres]
        exact ⟨hnd, hpos, hids⟩
      | ok p =>
        rcases p with ⟨b, ns'⟩
        obtain ⟨n, hkn, hpos', hothers, hfalse⟩ := release_ok_effect st.ns k wid b ns' hrel hpos
        subst hkn
        cases b with
        | false =>
          have hres : (Worker._action_close wid st req).1 = WorkerState.mk ns' st.inst_ids := by
            simp [Worker._action_close, hi, hc, hrel, pack, isPlain]
          rw [hres]
          obtain ⟨hinstn, rc', hl', hw'⟩ := hfalse rfl
          refine ⟨hnd, hpos', ?_⟩
          intro k hk
          obtain ⟨m, rc, hkm, hcm, hlm, hwm⟩ := hids k hk
          subst hkm
          by_cases hm : m = n
          · subst hm
            refine ⟨m, rc', rfl, ?_, hl', hw'⟩
            rw [dictContains, hinstn, ← dictContains]
            exact hcm
          · obtain ⟨hr, hin⟩ := hothers m hm
            refine ⟨m, rc, rfl, ?_, ?_, hwm⟩
            · rw [dictContains, hin, ← dictContains]
              exact hcm
            · rw [hr]
              exact hlm
        | true =>
          cases hrem : pySetRemove st.inst_ids (Key.id n) with
          | error e =>
            have hnmem : Key.id n ∉ st.inst_ids := by
              intro hmm
              rw [pySetRemove, if_pos hmm] at hrem
              cases hrem
            have hres : (Worker._action_close wid st req).1 =
                WorkerState.mk ns' st.inst_ids := by
              simp [Worker._action_close, hi, hc, hrel, hrem]
            rw [hres]
            refine ⟨hnd, hpos', ?_⟩
            intro k hk
            obtain ⟨m, rc, hkm, hcm, hlm, hwm⟩ := hids k hk
            subst hkm
            have hm : m ≠ n := fun hc2 => hnmem (hc2 ▸ hk)
            obtain ⟨hr, hin⟩ := hothers m hm
            refine ⟨m, rc, rfl, ?_, ?_, hwm⟩
            · rw [dictContains, hin, ← dictContains]
              exact hcm
            · rw [hr]
              exact hlm
          | ok ids' =>
            have hids'eq : ids' = st.inst_ids.filter (fun x => decide (x ≠ Key.id n)) := by
              rw [pySetRemove] at hrem
              by_cases hmm : Key.id n ∈ st.inst_ids
              · rw [if_pos hmm] at hrem
                injection hrem with hrem
                exact hrem.symm
              · rw [if_neg hmm] at hrem
                cases hrem
            have hres : (Worker._action_close wid st req).1 = WorkerState.mk ns' ids' := by
              simp [Worker._action_close, hi, hc, hrel, hrem, pack, isPlain]
            rw [hres]
            subst hids'eq
            refine ⟨List.Nodup.filter _ hnd, hpos', ?_⟩
            intro k hk
            rw [List.mem_filter] at hk
            obtain ⟨hk1, hk2⟩ := hk
            have hkne : k ≠ Key.id n := by simpa using hk2
            obtain ⟨m, rc, hkm, hcm, hlm, hwm⟩ := hids k hk1
            subst hkm
            have hm : m ≠ n := fun hc2 => hkne (congrArg Key.id hc2)
            obtain ⟨hr, hin⟩ := hothers m hm
            refine ⟨m, rc, rfl, ?_, ?_, hwm⟩
            · rw [dictContains, hin, ← dictContains]
              exact hcm
            · rw [hr]
              exact hlm
    · have hres : (Worker._action_close wid st req).1 = st := by
        simp [Worker._action_close, hi, hc]
      rw [hres]
      exact ⟨hnd, hpos, hids⟩

theorem execute_preserves_winv (wid : Nat) (call : CallResult) (st : WorkerState)
    (req : Request) (hI : WInv wid st) :
    WInv wid (Worker._action_execute wid call st req).1 := by
  obtain ⟨hnd, hpos, hids⟩ := hI
  cases hi : req.inst with
  | none =>
    have hres : (Worker._action_execute wid call st req).1 = st := by
      simp [Worker._action_execute, hi]
    rw [hres]
    exact ⟨hnd, hpos, hids⟩
  | some k =>
    by_cases hc : Namespace.contains st.ns k = true
    · cases hm : req.method with
      | none =>
        have hres : (Worker._action_execute wid call st req).1 = st := by
          simp [Worker._action_execute, hi, hc, hm]
        rw [hres]
        exact ⟨hnd, hpos, hids⟩
      | some mname =>
        cases hgi : Namespace.getitem st.ns k with
        | error e =>
          have hres : (Worker._action_execute wid call st req).1 = st := by
            simp [Worker._action_execute, hi, hc, hm, hgi]
          rw [hres]
          exact ⟨hnd, hpos, hids⟩
        | ok target =>
          cases call with
          | error e =>
            have hres : (Worker._action_execute wid (Except.error e) st req).1 = st := by
              simp [Worker._action_execute, hi, hc, hm, hgi]
            rw [hres]
            exact ⟨hnd, hpos, hids⟩
          | ok pr =>
            rcases pr with ⟨ret, retId⟩
            by_cases hpl : isPlain ret = true
            · have hres : (Worker._action_execute wid (Except.ok (ret, retId)) st req).1 = st := by
                simp [Worker._action_execute, hi, hc, hm, hgi, pack, hpl]
              rw [hres]
              exact ⟨hnd, hpos, hids⟩
            · have hplf : isPlain ret = false := by
                cases hev : isPlain ret with
                | false => rfl
                | true => exact absurd hev hpl
              cases hadd : Namespace.add st.ns ret retId wid Option.none with
              | error e =>
                have hres : (Worker._action_execute wid (Except.ok (ret, retId)) st req).1 = st := by
                  simp [Worker._action_execute, hi, hc, hm, hgi, pack, hplf, isPlain, hadd]
                rw [hres]
                exact ⟨hnd, hpos, hids⟩
              | ok ns' =>
                have heff := add_none_ok_effect st.ns ret retId wid ns' hadd hpos
                have hres : (Worker._action_execute wid (Except.ok (ret, retId)) st req).1 =
                    WorkerState.mk ns' (pySetAdd st.inst_ids (Key.id retId)) := by
                  simp [Worker._action_execute, hi, hc, hm, hgi, pack, hplf, isPlain, hadd]
                rw [hres]
                exact winv_insert wid retId st ns' hnd heff.1 heff.2.1 heff.2.2.1
                  heff.2.2.2 hids
    · have hres : (Worker._action_execute wid call st req).1 = st := by
        simp [Worker._action_execute, hi, hc]
      rw [hres]
      exact ⟨hnd, hpos, hids⟩

/-- C9: the worker-local invariant `WInv` — every instance id in the
acquisition set `_inst_ids` is an int id present in the Namespace
whose reference table carries this worker's entry, with every stored
count ≥ 1 (first conjunct spells out the per-id consequence: this
worker's count is at least 1).  Each of the open, close and execute
handlers preserves the invariant across every branch, including the
partially-mutated states left behind when an exception escapes
mid-handler (conjuncts 2-4), and under the invariant the
disconnect-time `release_all` finds an owner entry for every id it
visits and therefore does not raise (conjunct 5). -/
theorem worker_acquisition_invariant :
    (∀ (wid : Nat) (st : WorkerState), WInv wid st →
      ∀ k ∈ st.inst_ids, ∃ n rc c, k = Key.id n ∧
        dictContains n st.ns.instances = true ∧
        dictLookup n st.ns.ref_counts = some rc ∧
        dictLookup wid rc = some c ∧ 1 ≤ c) ∧
    (∀ (wid : Nat) (call : CallResult) (st : WorkerState) (req : Request),
      WInv wid st → WInv wid (Worker._action_open wid call st req).1) ∧
    (∀ (wid : Nat) (st : WorkerState) (req : Request),
      WInv wid st → WInv wid (Worker._action_close wid st req).1) ∧
    (∀ (wid : Nat) (call : CallResult) (st : WorkerState) (req : Request),
      WInv wid st → WInv wid (Worker._action_execute wid call st req).1) ∧
    (∀ (wid : Nat) (st : WorkerState), WInv wid st →
      ∃ ns', Namespace.release_all st.ns st.inst_ids wid = Except.ok ns') := by
  refine ⟨?_, fun wid call st req h => open_preserves_winv wid call st req h,
    fun wid st req h => close_preserves_winv wid st req h,
    fun wid call st req h => execute_preserves_winv wid call st req h, ?_⟩
  · intro wid st hI k hk
    obtain ⟨hnd, hpos, hids⟩ := hI
    obtain ⟨n, rc, hkn, hcn, hln, hwn⟩ := hids k hk
    obtain ⟨c, hcv⟩ := (dictContains_iff wid rc).mp hwn
    exact ⟨n, rc, c, hkn, hcn, hln, hcv,
      hpos n rc hln (wid, c) (mem_of_dictLookup hcv)⟩
  · intro wid st hI
    obtain ⟨hnd, hpos, hids⟩ := hI
    have hhold : ∀ k ∈ st.inst_ids, ownerHolds st.ns k wid = true := by
      intro k hk
      obtain ⟨n, rc, hkn, hcn, hln, hwn⟩ := hids k hk
      subst hkn
      simp [ownerHolds, hln, hwn]
    have hpres : ∀ k ∈ st.inst_ids, Namespace.contains st.ns k = true := by
      intro k hk
      obtain ⟨n, rc, hkn, hcn, hln, hwn⟩ := hids k hk
      subst hkn
      exact hcn
    obtain ⟨ns', hok, _⟩ := release_all_effect st.inst_ids st.ns wid hnd hhold hpres
    exact ⟨ns', hok⟩

theorem closeWS_winv : WInv 5 closeWS := by
  refine ⟨List.nodup_singleton _, ?_, ?_⟩
  · intro n rc hl
    by_cases hn : (1 : Nat) = n
    · have h1 : dictLookup n closeWS.ns.ref_counts = some [(5, 1)] := by
        simp [closeWS, closeNs, dictLookup, hn]
      rw [h1] at hl
      injection hl with hl
      rw [← hl]
      intro p hp
      rcases List.mem_singleton.mp hp with h
      rw [h]
    · have h1 : dictLookup n closeWS.ns.ref_counts = Option.none := by
        simp [closeWS, closeNs, dictLookup, hn]
      rw [h1] at hl
      cases hl
  · intro k hk
    rcases List.mem_singleton.mp hk with h
    subst h
    exact ⟨1, [(5, 1)], rfl, by decide, by decide, by decide⟩

theorem worker_acquisition_invariant_witness :
    (∀ k ∈ closeWS.inst_ids, ∃ n rc c, k = Key.id n ∧
      dictContains n closeWS.ns.instances = true ∧
      dictLookup n closeWS.ns.ref_counts = some rc ∧
      dictLookup 5 rc = some c ∧ 1 ≤ c) ∧
    WInv 5 (Worker._action_open 5 (Except.error (Exc.valueError "unused")) closeWS bogusReq).1 ∧
    WInv 5 (Worker._action_close 5 closeWS closeReqC).1 ∧
    WInv 5 (Worker._action_execute 5 (Except.ok (PyVal.int 3, 99)) closeWS execReq).1 ∧
    (∃ ns', Namespace.release_all closeWS.ns closeWS.inst_ids 5 = Except.ok ns') :=
  ⟨worker_acquisition_invariant.1 5 closeWS closeWS_winv,
   worker_acquisition_invariant.2.1 5 (Except.error (Exc.valueError "unused")) closeWS
     bogusReq closeWS_winv,
   worker_acquisition_invariant.2.2.1 5 closeWS closeReqC closeWS_winv,
   worker_acquisition_invariant.2.2.2.1 5 (Except.ok (PyVal.int 3, 99)) closeWS
     execReq closeWS_winv,
   worker_acquisition_invariant.2.2.2.2 5 closeWS closeWS_winv⟩

end Crouton
